import Mathlib

/-!
Verification of the markup document engine of the `chisel` static-site
generator: the HTML entity codec, the tag-tree (HTML) serializer and
parser (`src/parsers/html/html.hpp`), and the markdown parser and
serializers (`src/parsers/markdown/markdown.hpp`).

The C++ sources are embedded shallowly:

* `std::string` becomes `String` / `List Char`; scanning loops become
  structural recursion.  Loops whose progress measure is not a direct
  structural argument take an explicit `fuel : Nat` first argument that
  every recursive call decrements; the public entry points supply fuel
  that provably dominates the number of iterations the C++ loop can
  make, so the fuel-exhaustion branch is unreachable there.
* `std::map<std::string, std::string>` (sorted, unique keys) becomes a
  key-sorted association list; `operator[]=` becomes sorted insertion
  with overwrite, `.find`/`.count` become association lookup, and
  iteration order is list order (hence key order).
* functions that can throw (`std::invalid_argument` from the HTML
  parser, `std::out_of_range` from `map::at`, `std::length_error` from
  `std::string(n, c)` with a negative count) return `Except String` or
  `Option` instead.
-/

/-! ## Character classes (std::isspace, regex \s, \w, \d, tolower) -/

/-- The `\s` class of `std::regex` and C `isspace`: space, tab, newline,
carriage return, vertical tab, form feed. -/
def isWsChar (c : Char) : Bool :=
  c = ' ' || c = '\t' || c = '\n' || c = '\r' || c = Char.ofNat 11 || c = Char.ofNat 12

/-- The four-character set `" \t\n\r"` used by the HTML parser's
`find_first_not_of` text trimming. -/
def isTrimChar (c : Char) : Bool :=
  c = ' ' || c = '\t' || c = '\n' || c = '\r'

/-- Decimal digit, the regex `\d` class. -/
def isDigitChar (c : Char) : Bool :=
  '0' ≤ c && c ≤ '9'

/-- The regex `\w` class: letters, digits, underscore. -/
def isWordChar (c : Char) : Bool :=
  ('a' ≤ c && c ≤ 'z') || ('A' ≤ c && c ≤ 'Z') || isDigitChar c || c = '_'

/-- `std::tolower` in the C locale: maps `A`-`Z` to `a`-`z`, leaves
every other character unchanged. -/
def toLowerChar (c : Char) : Char :=
  if 'A' ≤ c && c ≤ 'Z' then Char.ofNat (c.toNat + 32) else c

/-- Trim with the character set `" \t\n\r"` from both ends, mirroring
the `find_first_not_of` / `find_last_not_of` block of the HTML parser
(the all-whitespace case yields the empty string there too). -/
def trimList (l : List Char) : List Char :=
  ((l.dropWhile isTrimChar).reverse.dropWhile isTrimChar).reverse

namespace html

/-! ## Entity codec (`html::escape_html`, `html::unescape_html`) -/

/-- One step of `escape_html`'s `switch`: the replacement emitted for a
single character. -/
def escapeChar (c : Char) : List Char :=
  if c = '&' then ['&', 'a', 'm', 'p', ';']
  else if c = '<' then ['&', 'l', 't', ';']
  else if c = '>' then ['&', 'g', 't', ';']
  else if c = '"' then ['&', 'q', 'u', 'o', 't', ';']
  else if c = '\'' then ['&', '#', '3', '9', ';']
  else [c]

/-- `html::escape_html`, left-to-right over the characters. -/
def escapeList : List Char → List Char
  | [] => []
  | c :: cs => escapeChar c ++ escapeList cs

/-- `html::unescape_html`: at `&` the five literal sequences are
recognized (the C++ `substr` comparisons require the full sequence to be
present; the five prefixes differ in their second character, so the
check order amp/lt/gt/quot/#39 never matters); any other `&` is copied
through verbatim. -/
def unescapeList : List Char → List Char
  | [] => []
  | c :: rest =>
    if c = '&' then
      match rest with
      | 'a' :: 'm' :: 'p' :: ';' :: r => '&' :: unescapeList r
      | 'l' :: 't' :: ';' :: r => '<' :: unescapeList r
      | 'g' :: 't' :: ';' :: r => '>' :: unescapeList r
      | 'q' :: 'u' :: 'o' :: 't' :: ';' :: r => '"' :: unescapeList r
      | '#' :: '3' :: '9' :: ';' :: r => '\'' :: unescapeList r
      | r => c :: unescapeList r
    else c :: unescapeList rest

/-- `html::escape_html` on `String`. -/
def escape_html (s : String) : String :=
  ⟨escapeList s.data⟩

/-- `html::unescape_html` on `String`. -/
def unescape_html (s : String) : String :=
  ⟨unescapeList s.data⟩

end html

/-! ## C2: the restricted alphabet and the escape/unescape round trip -/

/-- The alphabet of claim C2: the five reserved characters, ASCII
letters, digits, and space. -/
def allowedChar (c : Char) : Bool :=
  c = '&' || c = '<' || c = '>' || c = '"' || c = '\'' ||
    ('a' ≤ c && c ≤ 'z') || ('A' ≤ c && c ≤ 'Z') || ('0' ≤ c && c ≤ '9') || c = ' '

set_option maxHeartbeats 1000000 in
theorem unescapeList_cons_ne_amp (c : Char) (h : ¬ c = '&') (rest : List Char) :
    html.unescapeList (c :: rest) = c :: html.unescapeList rest := by
  rw [html.unescapeList.eq_def]
  dsimp only
  rw [if_neg h]

theorem escapeChar_of_plain (c : Char) (h1 : ¬ c = '&') (h2 : ¬ c = '<') (h3 : ¬ c = '>')
    (h4 : ¬ c = '"') (h5 : ¬ c = '\'') : html.escapeChar c = [c] := by
  unfold html.escapeChar
  rw [if_neg h1, if_neg h2, if_neg h3, if_neg h4, if_neg h5]

theorem unescape_escape_cons (c : Char) (h : allowedChar c = true) (rest : List Char) :
    html.unescapeList (html.escapeChar c ++ rest) = c :: html.unescapeList rest := by
  by_cases h1 : c = '&'
  · subst h1; rfl
  · by_cases h2 : c = '<'
    · subst h2; rfl
    · by_cases h3 : c = '>'
      · subst h3; rfl
      · by_cases h4 : c = '"'
        · subst h4; rfl
        · by_cases h5 : c = '\''
          · subst h5; rfl
          · rw [escapeChar_of_plain c h1 h2 h3 h4 h5]
            exact unescapeList_cons_ne_amp c h1 rest

theorem unescape_escape_list (l : List Char) (h : l.all allowedChar = true) :
    html.unescapeList (html.escapeList l) = l := by
  induction l with
  | nil => rfl
  | cons c cs ih =>
    simp only [List.all_cons, Bool.and_eq_true] at h
    show html.unescapeList (html.escapeChar c ++ html.escapeList cs) = c :: cs
    rw [unescape_escape_cons c h.1, ih h.2]

/-- C2: for every text whose characters are drawn from
`{&, <, >, ", ', a-z, A-Z, 0-9, space}`, `unescape_html (escape_html t)`
equals `t`. -/
theorem escape_unescape_roundtrip (t : String) (h : t.data.all allowedChar = true) :
    html.unescape_html (html.escape_html t) = t := by
  cases t with
  | mk data =>
    show String.mk (html.unescapeList (html.escapeList data)) = String.mk data
    rw [unescape_escape_list data h]

theorem escape_unescape_roundtrip_witness :
    ("a&<b>\"' 9Z".data.all allowedChar = true) ∧
      html.unescape_html (html.escape_html "a&<b>\"' 9Z") = "a&<b>\"' 9Z" :=
  ⟨by decide, escape_unescape_roundtrip "a&<b>\"' 9Z" (by decide)⟩

/-! ## C10: escape output is entity-clean for all inputs -/

/-- The five entity sequences emitted by `escape_html`. -/
def entityHeads : List (List Char) :=
  [['&', 'a', 'm', 'p', ';'], ['&', 'l', 't', ';'], ['&', 'g', 't', ';'],
    ['&', 'q', 'u', 'o', 't', ';'], ['&', '#', '3', '9', ';']]

theorem escape_clean_aux (l : List Char) : ∀ (i : Nat),
    (((html.escapeList l).get? i ≠ some '<') ∧ ((html.escapeList l).get? i ≠ some '>') ∧
      ((html.escapeList l).get? i ≠ some '"') ∧ ((html.escapeList l).get? i ≠ some '\'')) ∧
      ((html.escapeList l).get? i = some '&' →
        ∃ e ∈ entityHeads, e <+: (html.escapeList l).drop i) := by
  induction l with
  | nil =>
    intro i
    refine ⟨⟨?_, ?_, ?_, ?_⟩, ?_⟩ <;> simp [html.escapeList]
  | cons c cs ih =>
    intro i
    by_cases h1 : c = '&'
    · subst h1
      show ((('&' :: 'a' :: 'm' :: 'p' :: ';' :: html.escapeList cs).get? i ≠ some '<') ∧ _ ∧ _ ∧ _) ∧ _
      rcases i with _|_|_|_|_|i
      · exact ⟨⟨by simp [html.escapeList, html.escapeChar], by simp [html.escapeList, html.escapeChar], by simp [html.escapeList, html.escapeChar], by simp [html.escapeList, html.escapeChar]⟩,
          fun _ => ⟨['&','a','m','p',';'], by simp [entityHeads], ⟨html.escapeList cs, rfl⟩⟩⟩
      · exact ⟨⟨by simp [html.escapeList, html.escapeChar], by simp [html.escapeList, html.escapeChar], by simp [html.escapeList, html.escapeChar], by simp [html.escapeList, html.escapeChar]⟩, by simp [html.escapeList, html.escapeChar]⟩
      · exact ⟨⟨by simp [html.escapeList, html.escapeChar], by simp [html.escapeList, html.escapeChar], by simp [html.escapeList, html.escapeChar], by simp [html.escapeList, html.escapeChar]⟩, by simp [html.escapeList, html.escapeChar]⟩
      · exact ⟨⟨by simp [html.escapeList, html.escapeChar], by simp [html.escapeList, html.escapeChar], by simp [html.escapeList, html.escapeChar], by simp [html.escapeList, html.escapeChar]⟩, by simp [html.escapeList, html.escapeChar]⟩
      · exact ⟨⟨by simp [html.escapeList, html.escapeChar], by simp [html.escapeList, html.escapeChar], by simp [html.escapeList, html.escapeChar], by simp [html.escapeList, html.escapeChar]⟩, by simp [html.escapeList, html.escapeChar]⟩
      · exact ih i
    · by_cases h2 : c = '<'
      · subst h2
        show ((('&' :: 'l' :: 't' :: ';' :: html.escapeList cs).get? i ≠ some '<') ∧ _ ∧ _ ∧ _) ∧ _
        rcases i with _|_|_|_|i
        · exact ⟨⟨by simp [html.escapeList, html.escapeChar], by simp [html.escapeList, html.escapeChar], by simp [html.escapeList, html.escapeChar], by simp [html.escapeList, html.escapeChar]⟩,
            fun _ => ⟨['&','l','t',';'], by simp [entityHeads], ⟨html.escapeList cs, rfl⟩⟩⟩
        · exact ⟨⟨by simp [html.escapeList, html.escapeChar], by simp [html.escapeList, html.escapeChar], by simp [html.escapeList, html.escapeChar], by simp [html.escapeList, html.escapeChar]⟩, by simp [html.escapeList, html.escapeChar]⟩
        · exact ⟨⟨by simp [html.escapeList, html.escapeChar], by simp [html.escapeList, html.escapeChar], by simp [html.escapeList, html.escapeChar], by simp [html.escapeList, html.escapeChar]⟩, by simp [html.escapeList, html.escapeChar]⟩
        · exact ⟨⟨by simp [html.escapeList, html.escapeChar], by simp [html.escapeList, html.escapeChar], by simp [html.escapeList, html.escapeChar], by simp [html.escapeList, html.escapeChar]⟩, by simp [html.escapeList, html.escapeChar]⟩
        · exact ih i
      · by_cases h3 : c = '>'
        · subst h3
          show ((('&' :: 'g' :: 't' :: ';' :: html.escapeList cs).get? i ≠ some '<') ∧ _ ∧ _ ∧ _) ∧ _
          rcases i with _|_|_|_|i
          · exact ⟨⟨by simp [html.escapeList, html.escapeChar], by simp [html.escapeList, html.escapeChar], by simp [html.escapeList, html.escapeChar], by simp [html.escapeList, html.escapeChar]⟩,
              fun _ => ⟨['&','g','t',';'], by simp [entityHeads], ⟨html.escapeList cs, rfl⟩⟩⟩
          · exact ⟨⟨by simp [html.escapeList, html.escapeChar], by simp [html.escapeList, html.escapeChar], by simp [html.escapeList, html.escapeChar], by simp [html.escapeList, html.escapeChar]⟩, by simp [html.escapeList, html.escapeChar]⟩
          · exact ⟨⟨by simp [html.escapeList, html.escapeChar], by simp [html.escapeList, html.escapeChar], by simp [html.escapeList, html.escapeChar], by simp [html.escapeList, html.escapeChar]⟩, by simp [html.escapeList, html.escapeChar]⟩
          · exact ⟨⟨by simp [html.escapeList, html.escapeChar], by simp [html.escapeList, html.escapeChar], by simp [html.escapeList, html.escapeChar], by simp [html.escapeList, html.escapeChar]⟩, by simp [html.escapeList, html.escapeChar]⟩
          · exact ih i
        · by_cases h4 : c = '"'
          · subst h4
            show ((('&' :: 'q' :: 'u' :: 'o' :: 't' :: ';' :: html.escapeList cs).get? i ≠ some '<') ∧ _ ∧ _ ∧ _) ∧ _
            rcases i with _|_|_|_|_|_|i
            · exact ⟨⟨by simp [html.escapeList, html.escapeChar], by simp [html.escapeList, html.escapeChar], by simp [html.escapeList, html.escapeChar], by simp [html.escapeList, html.escapeChar]⟩,
                fun _ => ⟨['&','q','u','o','t',';'], by simp [entityHeads], ⟨html.escapeList cs, rfl⟩⟩⟩
            · exact ⟨⟨by simp [html.escapeList, html.escapeChar], by simp [html.escapeList, html.escapeChar], by simp [html.escapeList, html.escapeChar], by simp [html.escapeList, html.escapeChar]⟩, by simp [html.escapeList, html.escapeChar]⟩
            · exact ⟨⟨by simp [html.escapeList, html.escapeChar], by simp [html.escapeList, html.escapeChar], by simp [html.escapeList, html.escapeChar], by simp [html.escapeList, html.escapeChar]⟩, by simp [html.escapeList, html.escapeChar]⟩
            · exact ⟨⟨by simp [html.escapeList, html.escapeChar], by simp [html.escapeList, html.escapeChar], by simp [html.escapeList, html.escapeChar], by simp [html.escapeList, html.escapeChar]⟩, by simp [html.escapeList, html.escapeChar]⟩
            · exact ⟨⟨by simp [html.escapeList, html.escapeChar], by simp [html.escapeList, html.escapeChar], by simp [html.escapeList, html.escapeChar], by simp [html.escapeList, html.escapeChar]⟩, by simp [html.escapeList, html.escapeChar]⟩
            · exact ⟨⟨by simp [html.escapeList, html.escapeChar], by simp [html.escapeList, html.escapeChar], by simp [html.escapeList, html.escapeChar], by simp [html.escapeList, html.escapeChar]⟩, by simp [html.escapeList, html.escapeChar]⟩
            · exact ih i
          · by_cases h5 : c = '\''
            · subst h5
              show ((('&' :: '#' :: '3' :: '9' :: ';' :: html.escapeList cs).get? i ≠ some '<') ∧ _ ∧ _ ∧ _) ∧ _
              rcases i with _|_|_|_|_|i
              · exact ⟨⟨by simp [html.escapeList, html.escapeChar], by simp [html.escapeList, html.escapeChar], by simp [html.escapeList, html.escapeChar], by simp [html.escapeList, html.escapeChar]⟩,
                  fun _ => ⟨['&','#','3','9',';'], by simp [entityHeads], ⟨html.escapeList cs, rfl⟩⟩⟩
              · exact ⟨⟨by simp [html.escapeList, html.escapeChar], by simp [html.escapeList, html.escapeChar], by simp [html.escapeList, html.escapeChar], by simp [html.escapeList, html.escapeChar]⟩, by simp [html.escapeList, html.escapeChar]⟩
              · exact ⟨⟨by simp [html.escapeList, html.escapeChar], by simp [html.escapeList, html.escapeChar], by simp [html.escapeList, html.escapeChar], by simp [html.escapeList, html.escapeChar]⟩, by simp [html.escapeList, html.escapeChar]⟩
              · exact ⟨⟨by simp [html.escapeList, html.escapeChar], by simp [html.escapeList, html.escapeChar], by simp [html.escapeList, html.escapeChar], by simp [html.escapeList, html.escapeChar]⟩, by simp [html.escapeList, html.escapeChar]⟩
              · exact ⟨⟨by simp [html.escapeList, html.escapeChar], by simp [html.escapeList, html.escapeChar], by simp [html.escapeList, html.escapeChar], by simp [html.escapeList, html.escapeChar]⟩, by simp [html.escapeList, html.escapeChar]⟩
              · exact ih i
            · have he : html.escapeList (c :: cs) = c :: html.escapeList cs := by
                show html.escapeChar c ++ html.escapeList cs = c :: html.escapeList cs
                rw [escapeChar_of_plain c h1 h2 h3 h4 h5]; rfl
              rw [he]
              rcases i with _|i
              · refine ⟨⟨?_, ?_, ?_, ?_⟩, ?_⟩
                · simp [h2]
                · simp [h3]
                · simp [h4]
                · simp [h5]
                · intro hc; simp at hc; exact absurd hc h1
              · exact ih i

/-- C10: for every input string, the escaped output contains no `<`,
`>`, `"` or `'`, and every `&` in it begins one of the five entity
sequences `&amp;` `&lt;` `&gt;` `&quot;` `&#39;`. -/
theorem escape_html_entity_clean (t : String) (i : Nat) :
    (((html.escape_html t).data.get? i ≠ some '<') ∧
      ((html.escape_html t).data.get? i ≠ some '>') ∧
      ((html.escape_html t).data.get? i ≠ some '"') ∧
      ((html.escape_html t).data.get? i ≠ some '\'')) ∧
      ((html.escape_html t).data.get? i = some '&' →
        ∃ e ∈ entityHeads, e <+: (html.escape_html t).data.drop i) :=
  escape_clean_aux t.data i

theorem escape_html_entity_clean_witness :
    ((html.escape_html "a&<").data.get? 1 = some '&') ∧
      (∃ e ∈ entityHeads, e <+: (html.escape_html "a&<").data.drop 1) :=
  ⟨by decide, (escape_html_entity_clean "a&<" 1).2 (by decide)⟩

namespace html

/-! ## Tag-tree model (`html::Node`) and attribute maps

`std::map<std::string, std::string>` is embedded as a key-sorted
association list: `operator[]=` is sorted insertion with overwrite and
iteration (used by the serializer) is list order. -/

/-- `std::map` insertion `m[k] = v`: keeps the list sorted by key,
overwrites an existing binding. -/
def attrInsert (m : List (String × String)) (k v : String) : List (String × String) :=
  match m with
  | [] => [(k, v)]
  | (k', v') :: rest =>
    if k < k' then (k, v) :: (k', v') :: rest
    else if k = k' then (k, v) :: rest
    else (k', v') :: attrInsert rest k v

/-- `map::find` / guarded `map::at`: the value bound to `k`, if any. -/
def attrLookup (m : List (String × String)) (k : String) : Option String :=
  match m with
  | [] => none
  | (k', v') :: rest => if k' = k then some v' else attrLookup rest k

/-- `html::Node`: tag (empty means bare text node), text, attribute map,
ordered children. -/
inductive Node where
  | mk (tag : String) (text : String) (attributes : List (String × String))
      (children : List Node)

def Node.tag : Node → String
  | .mk t _ _ _ => t

def Node.text : Node → String
  | .mk _ x _ _ => x

def Node.attributes : Node → List (String × String)
  | .mk _ _ a _ => a

def Node.children : Node → List Node
  | .mk _ _ _ c => c

@[simp] theorem Node.tag_mk (t x : String) (a : List (String × String)) (c : List Node) :
    (Node.mk t x a c).tag = t := rfl

@[simp] theorem Node.text_mk (t x : String) (a : List (String × String)) (c : List Node) :
    (Node.mk t x a c).text = x := rfl

@[simp] theorem Node.attributes_mk (t x : String) (a : List (String × String)) (c : List Node) :
    (Node.mk t x a c).attributes = a := rfl

@[simp] theorem Node.children_mk (t x : String) (a : List (String × String)) (c : List Node) :
    (Node.mk t x a c).children = c := rfl

mutual

/-- Executable tree size, used as recursion fuel for the serializer. -/
def nodeSize : Node → Nat
  | .mk _ _ _ children => 1 + nodeListSize children

def nodeListSize : List Node → Nat
  | [] => 0
  | c :: cs => nodeSize c + nodeListSize cs

end

/-! ## Tag-tree serializer (`html::Serializer::serialize`) -/

/-- The serializer's `self_closing_tags` set. -/
def selfClosingTags : List String := ["img", "hr", "br"]

/-- The serializer's `inline_tags` set. -/
def inlineTags : List String := ["strong", "em", "a", "code", "span"]

/-- `std::string(indent_level * 2, ' ')`. -/
def indentStr (lvl : Nat) : String := ⟨List.replicate (lvl * 2) ' '⟩

/-- The attribute loop: ` key="escaped value"` per entry, in map
(= sorted key) order. -/
def attrsString (attrs : List (String × String)) : String :=
  attrs.foldl (fun acc kv => acc ++ " " ++ kv.1 ++ "=\"" ++ escape_html kv.2 ++ "\"") ""

/-- The serializer's raw-text condition: tag is `code`, a `class`
attribute exists, is non-empty, and `find("language-") == 0`
(i.e. starts with `language-`). -/
def rawTextCond (tag : String) (attrs : List (String × String)) : Bool :=
  tag == "code" &&
    (match attrLookup attrs "class" with
     | some v => !v.isEmpty && "language-".data.isPrefixOf v.data
     | none => false)

/-- `html::Serializer::serialize`, with explicit recursion fuel (the
recursion depth; any fuel at least `sizeOf node` behaves identically,
see `serializeFuel_congr`). -/
def serializeFuel : Nat → Node → Nat → String
  | 0, _, _ => ""
  | fuel + 1, node, lvl =>
    if node.tag ≠ "" then
      if selfClosingTags.contains node.tag then
        indentStr lvl ++ "<" ++ node.tag ++ attrsString node.attributes ++ " />"
      else
        indentStr lvl ++ "<" ++ node.tag ++ attrsString node.attributes ++ ">" ++
          (if node.text ≠ "" then
            (if rawTextCond node.tag node.attributes then node.text else escape_html node.text)
          else "") ++
          (node.children.foldl (fun acc c =>
            acc ++ (if inlineTags.contains node.tag then "" else "\n") ++
              serializeFuel fuel c (if inlineTags.contains node.tag then 0 else lvl + 1)) "") ++
          (if ¬ node.children.isEmpty ∧ ¬ inlineTags.contains node.tag then
            "\n" ++ indentStr lvl
          else "") ++
          "</" ++ node.tag ++ ">"
    else if node.text ≠ "" then indentStr lvl ++ escape_html node.text
    else ""

/-- `html::Serializer::serialize` (public entry point; C++ default
indent level is 0, passed explicitly here). -/
def Serializer.serialize (node : Node) (lvl : Nat) : String :=
  serializeFuel (nodeSize node) node lvl

theorem node_size_pos (node : Node) : 0 < nodeSize node := by
  cases node with
  | mk tag text attrs children => simp [nodeSize]

theorem nodeListSize_le_of_mem (c : Node) : ∀ (l : List Node), c ∈ l →
    nodeSize c ≤ nodeListSize l := by
  intro l
  induction l with
  | nil => intro h; cases h
  | cons a as ih =>
    intro h
    rw [nodeListSize]
    rcases List.mem_cons.mp h with rfl | h'
    · omega
    · have := ih h'
      omega

theorem child_size_lt (tag text : String) (attrs : List (String × String))
    (children : List Node) (c : Node) (hc : c ∈ children) :
    nodeSize c < nodeSize (Node.mk tag text attrs children) := by
  have h1 := nodeListSize_le_of_mem c children hc
  rw [nodeSize]
  omega

theorem serializeFuel_succ_open (n : Nat) (tag text : String)
    (attrs : List (String × String)) (children : List Node) (lvl : Nat)
    (htag : tag ≠ "") (hsc : selfClosingTags.contains tag = false) :
    serializeFuel (n + 1) (Node.mk tag text attrs children) lvl =
      indentStr lvl ++ "<" ++ tag ++ attrsString attrs ++ ">" ++
        (if text ≠ "" then
          (if rawTextCond tag attrs then text else escape_html text)
        else "") ++
        (children.foldl (fun acc c =>
          acc ++ (if inlineTags.contains tag then "" else "\n") ++
            serializeFuel n c (if inlineTags.contains tag then 0 else lvl + 1)) "") ++
        (if ¬ children.isEmpty ∧ ¬ inlineTags.contains tag then "\n" ++ indentStr lvl else "") ++
        "</" ++ tag ++ ">" := by
  simp only [serializeFuel, Node.tag_mk, Node.text_mk, Node.attributes_mk, Node.children_mk]
  rw [if_pos htag, if_neg (by simpa using hsc)]

theorem serializeFuel_succ_selfclosing (n : Nat) (tag text : String)
    (attrs : List (String × String)) (children : List Node) (lvl : Nat)
    (htag : tag ≠ "") (hsc : selfClosingTags.contains tag = true) :
    serializeFuel (n + 1) (Node.mk tag text attrs children) lvl =
      indentStr lvl ++ "<" ++ tag ++ attrsString attrs ++ " />" := by
  simp only [serializeFuel, Node.tag_mk, Node.text_mk, Node.attributes_mk, Node.children_mk]
  rw [if_pos htag, if_pos hsc]

theorem serializeFuel_congr (bound : Nat) : ∀ (node : Node) (f₁ f₂ lvl : Nat),
    nodeSize node ≤ bound → nodeSize node ≤ f₁ → nodeSize node ≤ f₂ →
    serializeFuel f₁ node lvl = serializeFuel f₂ node lvl := by
  induction bound with
  | zero =>
    intro node _ _ _ hb _ _
    exact absurd hb (by have := node_size_pos node; omega)
  | succ b ih =>
    intro node f₁ f₂ lvl hb h1 h2
    have hpos := node_size_pos node
    cases f₁ with
    | zero => omega
    | succ g₁ =>
      cases f₂ with
      | zero => omega
      | succ g₂ =>
        cases node with
        | mk tag text attrs children =>
          by_cases htag : tag = ""
          · subst htag
            simp [serializeFuel]
          · by_cases hsc : selfClosingTags.contains tag = true
            · rw [serializeFuel_succ_selfclosing g₁ tag text attrs children lvl htag hsc,
                serializeFuel_succ_selfclosing g₂ tag text attrs children lvl htag hsc]
            · have hsc' : selfClosingTags.contains tag = false :=
                Bool.eq_false_iff.mpr hsc
              rw [serializeFuel_succ_open g₁ tag text attrs children lvl htag hsc',
                serializeFuel_succ_open g₂ tag text attrs children lvl htag hsc']
              have hfold : (children.foldl (fun acc c =>
                  acc ++ (if inlineTags.contains tag then "" else "\n") ++
                    serializeFuel g₁ c (if inlineTags.contains tag then 0 else lvl + 1)) "") =
                  (children.foldl (fun acc c =>
                  acc ++ (if inlineTags.contains tag then "" else "\n") ++
                    serializeFuel g₂ c (if inlineTags.contains tag then 0 else lvl + 1)) "") := by
                apply List.foldl_ext
                intro a c hc
                have hlt := child_size_lt tag text attrs children c hc
                have hbn : nodeSize (Node.mk tag text attrs children) = nodeSize (Node.mk tag text attrs children) := rfl
                rw [ih c g₁ g₂ _ (by omega) (by omega) (by omega)]
              rw [hfold]

/-- C7: on a node whose tag is `img`, `hr` or `br`, the serializer
emits exactly the indent, the opening tag with its attributes (in map
= sorted key order, values escaped) and `" />"`; the output ends in
`" />"` and is independent of the node's text and children. -/
theorem render_selfclosing_only_open_tag (tag text : String)
    (attrs : List (String × String)) (children : List Node) (lvl : Nat)
    (h : tag = "img" ∨ tag = "hr" ∨ tag = "br") :
    Serializer.serialize (Node.mk tag text attrs children) lvl =
      indentStr lvl ++ "<" ++ tag ++ attrsString attrs ++ " />" ∧
    " />".data <:+ (Serializer.serialize (Node.mk tag text attrs children) lvl).data ∧
    Serializer.serialize (Node.mk tag text attrs children) lvl =
      Serializer.serialize (Node.mk tag "" attrs []) lvl := by
  have htag : tag ≠ "" := by
    rcases h with rfl | rfl | rfl <;> decide
  have hsc : selfClosingTags.contains tag = true := by
    rcases h with rfl | rfl | rfl <;> decide
  have hser : ∀ (x : String) (cs : List Node),
      Serializer.serialize (Node.mk tag x attrs cs) lvl =
        indentStr lvl ++ "<" ++ tag ++ attrsString attrs ++ " />" := by
    intro x cs
    show serializeFuel (nodeSize (Node.mk tag x attrs cs)) (Node.mk tag x attrs cs) lvl = _
    rw [show nodeSize (Node.mk tag x attrs cs) = nodeListSize cs + 1 by rw [nodeSize]; omega]
    exact serializeFuel_succ_selfclosing (nodeListSize cs) tag x attrs cs lvl htag hsc
  refine ⟨hser text children, ?_, ?_⟩
  · rw [hser text children]
    rw [String.data_append]
    exact List.suffix_append _ _
  · rw [hser text children, hser "" []]

theorem render_selfclosing_witness :
    Serializer.serialize
        (Node.mk "img" "stray" [("src", "x.png")] [Node.mk "p" "child" [] []]) 0 =
      "<img src=\"x.png\" />" :=
  (render_selfclosing_only_open_tag "img" "stray" [("src", "x.png")]
    [Node.mk "p" "child" [] []] 0 (Or.inl rfl)).1

end html

namespace html

theorem startsWith_of_isEmpty (v : String) (hv : v.isEmpty = true) :
    "language-".data.isPrefixOf v.data = false := by
  have : v = "" := (String.isEmpty_iff v).mp hv
  subst this
  rfl

theorem rawTextCond_eq (tag : String) (attrs : List (String × String)) :
    (rawTextCond tag attrs = true) ↔
      (tag = "code" ∧
        (attrLookup attrs "class").any (fun v => "language-".data.isPrefixOf v.data) = true) := by
  unfold rawTextCond
  cases h : attrLookup attrs "class" with
  | none => simp [Option.any]
  | some v =>
    simp only [Option.any, Bool.and_eq_true, beq_iff_eq, Bool.not_eq_true']
    constructor
    · rintro ⟨htag, _, hsw⟩
      exact ⟨htag, hsw⟩
    · rintro ⟨htag, hsw⟩
      refine ⟨htag, ?_, hsw⟩
      cases he : v.isEmpty
      · rfl
      · rw [startsWith_of_isEmpty v he] at hsw
        cases hsw

/-- C6: the serializer escapes a node's text through the entity codec
unless the tag is `code` and the `class` attribute starts with
`language-`, in which case the text is emitted verbatim; the rest of
the output (opening tag, attributes, children, closing tag) is
unaffected by the choice. -/
theorem render_text_escaping (tag text : String) (attrs : List (String × String))
    (children : List Node) (lvl : Nat) (htag : tag ≠ "")
    (hsc : selfClosingTags.contains tag = false) (htext : text ≠ "") :
    Serializer.serialize (Node.mk tag text attrs children) lvl =
      indentStr lvl ++ "<" ++ tag ++ attrsString attrs ++ ">" ++
        (if tag = "code" ∧
            (attrLookup attrs "class").any (fun v => "language-".data.isPrefixOf v.data) = true
          then text else escape_html text) ++
        (children.foldl (fun acc c =>
          acc ++ (if inlineTags.contains tag then "" else "\n") ++
            Serializer.serialize c (if inlineTags.contains tag then 0 else lvl + 1)) "") ++
        (if ¬ children.isEmpty ∧ ¬ inlineTags.contains tag then "\n" ++ indentStr lvl else "") ++
        "</" ++ tag ++ ">" := by
  show serializeFuel (nodeSize (Node.mk tag text attrs children)) _ _ = _
  rw [show nodeSize (Node.mk tag text attrs children) = nodeListSize children + 1 by
    rw [nodeSize]; omega]
  rw [serializeFuel_succ_open (nodeListSize children) tag text attrs children lvl htag hsc]
  rw [if_pos htext]
  have hfold : (children.foldl (fun acc c =>
      acc ++ (if inlineTags.contains tag then "" else "\n") ++
        serializeFuel (nodeListSize children) c
          (if inlineTags.contains tag then 0 else lvl + 1)) "") =
      (children.foldl (fun acc c =>
      acc ++ (if inlineTags.contains tag then "" else "\n") ++
        Serializer.serialize c (if inlineTags.contains tag then 0 else lvl + 1)) "") := by
    apply List.foldl_ext
    intro a c hc
    have hle := nodeListSize_le_of_mem c children hc
    rw [serializeFuel_congr (nodeSize c) c (nodeListSize children) (nodeSize c) _
      (Nat.le_refl _) (by omega) (Nat.le_refl _)]
    rfl
  rw [hfold]
  rw [if_congr (rawTextCond_eq tag attrs) rfl rfl]

theorem render_text_escaping_witness :
    (Serializer.serialize
        (Node.mk "code" "<injected>" [("class", "language-cpp")] []) 0 =
      "<code class=\"language-cpp\"><injected></code>") ∧
      (Serializer.serialize (Node.mk "p" "<injected>" [] []) 0 =
        "<p>&lt;injected&gt;</p>") := by
  constructor
  · have h := render_text_escaping "code" "<injected>" [("class", "language-cpp")] [] 0
      (by decide) (by decide) (by decide)
    rw [h]
    rw [if_pos (by exact ⟨rfl, by decide⟩)]
    rfl
  · have h := render_text_escaping "p" "<injected>" [] [] 0
      (by decide) (by decide) (by decide)
    rw [h]
    rw [if_neg (by rintro ⟨h1, _⟩; exact absurd h1 (by decide))]
    rfl

end html

namespace html

/-! ## Tag-tree parser (`html::Deserializer`) -/

/-- `skip_whitespace` (C `isspace` set). -/
def skipWs (l : List Char) : List Char := l.dropWhile isWsChar

/-- Final text handling after the body loop: a non-empty pending text
run is trimmed (set `" \t\n\r"`), unescaped and stored, overwriting any
earlier stored run; an empty pending run leaves the stored text alone. -/
def finishText (acc : List Char) (nodeText : String) : String :=
  if acc.isEmpty then nodeText else ⟨unescapeList (trimList acc)⟩

/-- The attribute loop of `parse_node`: keys are read up to `=`, `>`,
`/` or whitespace and lowercased; values are either quoted (up to the
closing `"`, which is skipped when present) or unquoted (up to space,
`>` or `/`); empty keys are discarded.  Fuel bounds the number of loop
steps; every step consumes at least one character, so any fuel above
the input length is equivalent. -/
def attrLoop : Nat → List Char → List (String × String) → (List (String × String) × List Char)
  | 0, l, attrs => (attrs, l)
  | fuel + 1, l, attrs =>
    match l with
    | [] => (attrs, [])
    | c :: _ =>
      if c = '>' || c = '/' then (attrs, l)
      else
        let k := l.takeWhile (fun ch => !(ch == '=' || ch == '>' || ch == '/' || isWsChar ch))
        let l1 := skipWs (l.drop k.length)
        let step : List Char × List Char :=
          match l1 with
          | '=' :: r =>
            let r1 := skipWs r
            (match r1 with
             | '"' :: r2 =>
               let val := r2.takeWhile (fun ch => !(ch == '"'))
               let r3 := r2.drop val.length
               (val, if r3.isEmpty then r3 else r3.tail)
             | _ =>
               let val := r1.takeWhile (fun ch => !(ch == ' ' || ch == '>' || ch == '/'))
               (val, r1.drop val.length))
          | _ => ([], l1)
        attrLoop fuel (skipWs step.2)
          (if k.isEmpty then attrs else attrInsert attrs ⟨k.map toLowerChar⟩ ⟨step.1⟩)

mutual

/-- `html::Deserializer::parse_node`.  Takes the remaining input,
returns the parsed node and the input remaining after it.  Fuel
decreases on every recursive call; `deserialize` supplies
`2 * length + 8`, which dominates the recursion (each unit of fuel
spent corresponds to at least one consumed input character). -/
def parseNodeF : Nat → List Char → Except String (Node × List Char)
  | 0, _ => .error "Invalid HTML: fuel exhausted"
  | fuel + 1, input =>
    match skipWs input with
    | [] => .ok (Node.mk "" "" [] [], [])
    | c :: rest =>
      if c = '<' then
        match rest with
        | [] => .error "Invalid HTML: Unexpected end of input"
        | c2 :: rest2 =>
          if c2 = '/' then .ok (Node.mk "" "" [] [], c2 :: rest2)
          else
            let t := (c2 :: rest2).takeWhile (fun ch => !(ch == ' ' || ch == '>' || ch == '/'))
            let tag := t.map toLowerChar
            let afterTag := (c2 :: rest2).drop t.length
            if tag.isEmpty then .error "Invalid HTML: Empty tag name"
            else
              match attrLoop (afterTag.length + 1) (skipWs afterTag) [] with
              | (attrs, l4) =>
                match l4 with
                | '/' :: r =>
                  .ok (Node.mk ⟨tag⟩ "" attrs [], match r with | '>' :: rr => rr | _ => r)
                | '>' :: r =>
                  match parseBodyF fuel r [] "" [] with
                  | .error e => .error e
                  | .ok (nodeText, children, rem) =>
                    match rem with
                    | '<' :: '/' :: r2 =>
                      let rawEnd := r2.takeWhile (fun ch => !(ch == '>'))
                      let r3 := r2.drop rawEnd.length
                      if rawEnd.map toLowerChar ≠ tag then
                        .error "Invalid HTML: Mismatched closing tag"
                      else
                        match r3 with
                        | '>' :: r4 => .ok (Node.mk ⟨tag⟩ nodeText attrs children, r4)
                        | _ => .error "Invalid HTML: Unclosed tag"
                    | _ => .error ("Invalid HTML: Missing closing tag for " ++ ⟨tag⟩)
                | _ => .error "Invalid HTML: Expected '>' after tag"
      else .ok (Node.mk "" "" [] [], c :: rest)

/-- The body loop of `parse_node`: accumulates text characters; at a
`</` it stops; at any other `<` it stores the pending text run
(unescaped, NOT trimmed) on the node, parses a child and keeps it when
its tag is non-empty; at end of input it falls through to the final
text handling. -/
def parseBodyF : Nat → List Char → List Char → String → List Node →
    Except String (String × List Node × List Char)
  | 0, _, _, _, _ => .error "Invalid HTML: fuel exhausted"
  | fuel + 1, l, acc, nodeText, children =>
    match l with
    | [] => .ok (finishText acc nodeText, children, [])
    | '<' :: '/' :: r => .ok (finishText acc nodeText, children, '<' :: '/' :: r)
    | '<' :: rest =>
      match parseNodeF fuel ('<' :: rest) with
      | .error e => .error e
      | .ok (child, rem) =>
        parseBodyF fuel rem []
          (if acc.isEmpty then nodeText else (⟨unescapeList acc⟩ : String))
          (if child.tag ≠ "" then children ++ [child] else children)
    | c :: rest => parseBodyF fuel rest (acc ++ [c]) nodeText children

end

/-- `html::Deserializer::deserialize` (`parse_html` in the spec). -/
def Deserializer.deserialize (s : String) : Except String Node :=
  match parseNodeF (2 * s.data.length + 8) s.data with
  | .error e => .error e
  | .ok (node, _) =>
    if node.tag = "" then .error "Invalid HTML: No root element found"
    else .ok node

end html

/-- Scratch check of the parser embedding on the repository's own test
input `<div><p>Paragraph 1</p><p>Paragraph 2</p></div>`. -/
theorem parse_html_nested_check :
    html.Deserializer.deserialize "<div><p>Paragraph 1</p><p>Paragraph 2</p></div>" =
      .ok (html.Node.mk "div" ""  []
        [html.Node.mk "p" "Paragraph 1" [] [], html.Node.mk "p" "Paragraph 2" [] []]) := rfl

/-! ## C5 / C9 infrastructure: scanning lemmas for the tag-tree parser -/

theorem skipWs_cons_not_ws (c : Char) (h : isWsChar c = false) (l : List Char) :
    html.skipWs (c :: l) = c :: l := by
  simp [html.skipWs, List.dropWhile_cons, h]

theorem takeWhile_all_stop (p : Char → Bool) (t : List Char) (c0 : Char) (body : List Char)
    (ht : ∀ c ∈ t, p c = true) (hc0 : p c0 = false) :
    (t ++ c0 :: body).takeWhile p = t := by
  induction t with
  | nil => simp [List.takeWhile_cons, hc0]
  | cons a as ih =>
    have ha : p a = true := ht a (List.mem_cons_self a as)
    show List.takeWhile p (a :: (as ++ c0 :: body)) = a :: as
    rw [List.takeWhile_cons]
    simp [ha, ih (fun c hc => ht c (List.mem_cons_of_mem a hc))]

theorem unescapeList_no_amp (l : List Char) (h : ∀ c ∈ l, ¬ c = '&') :
    html.unescapeList l = l := by
  induction l with
  | nil => rfl
  | cons c cs ih =>
    rw [unescapeList_cons_ne_amp c (h c (List.mem_cons_self c cs)) cs]
    rw [ih (fun c hc => h c (List.mem_cons_of_mem _ hc))]

theorem mem_trimList (c : Char) (l : List Char) (h : c ∈ trimList l) : c ∈ l := by
  unfold trimList at h
  rw [List.mem_reverse] at h
  have h2 : c ∈ (List.dropWhile isTrimChar l).reverse :=
    List.Sublist.mem h (List.dropWhile_sublist isTrimChar)
  rw [List.mem_reverse] at h2
  exact List.Sublist.mem h2 (List.dropWhile_sublist isTrimChar)

theorem parseBodyF_nil (fuel : Nat) (acc : List Char) (nt : String) (ch : List html.Node) :
    html.parseBodyF (fuel + 1) [] acc nt ch = .ok (html.finishText acc nt, ch, []) := rfl

theorem parseBodyF_close (fuel : Nat) (r acc : List Char) (nt : String) (ch : List html.Node) :
    html.parseBodyF (fuel + 1) ('<' :: '/' :: r) acc nt ch =
      .ok (html.finishText acc nt, ch, '<' :: '/' :: r) := rfl

set_option maxHeartbeats 1000000 in
theorem parseBodyF_text_step (fuel : Nat) (c : Char) (hc : ¬ c = '<') (rest acc : List Char)
    (nt : String) (ch : List html.Node) :
    html.parseBodyF (fuel + 1) (c :: rest) acc nt ch =
      html.parseBodyF fuel rest (acc ++ [c]) nt ch := by
  rw [html.parseBodyF.eq_def]
  dsimp only
  split <;> simp_all

theorem parseBodyF_no_lt (body : List Char) : ∀ (fuel : Nat) (acc : List Char) (nt : String)
    (ch : List html.Node), (∀ c ∈ body, ¬ c = '<') → body.length < fuel →
    html.parseBodyF fuel body acc nt ch = .ok (html.finishText (acc ++ body) nt, ch, []) := by
  induction body with
  | nil =>
    intro fuel acc nt ch _ hf
    cases fuel with
    | zero => omega
    | succ f => rw [parseBodyF_nil]; rw [List.append_nil]
  | cons c bs ih =>
    intro fuel acc nt ch hlt hf
    cases fuel with
    | zero => simp at hf
    | succ f =>
      rw [parseBodyF_text_step f c (hlt c (List.mem_cons_self c bs)) bs acc nt ch]
      rw [ih f (acc ++ [c]) nt ch (fun x hx => hlt x (List.mem_cons_of_mem _ hx)) (by simp at hf ⊢; omega)]
      simp

theorem parseBodyF_scan (t : List Char) : ∀ (fuel : Nat) (l' acc : List Char) (nt : String)
    (ch : List html.Node), (∀ c ∈ t, ¬ c = '<') →
    html.parseBodyF (fuel + t.length) (t ++ l') acc nt ch =
      html.parseBodyF fuel l' (acc ++ t) nt ch := by
  induction t with
  | nil => intro fuel l' acc nt ch _; simp
  | cons c ts ih =>
    intro fuel l' acc nt ch hlt
    have hshape : fuel + (c :: ts).length = (fuel + ts.length) + 1 := by simp; omega
    rw [hshape]
    show html.parseBodyF ((fuel + ts.length) + 1) (c :: (ts ++ l')) acc nt ch = _
    rw [parseBodyF_text_step (fuel + ts.length) c (hlt c (List.mem_cons_self c ts)) (ts ++ l') acc nt ch]
    rw [ih fuel l' (acc ++ [c]) nt ch (fun x hx => hlt x (List.mem_cons_of_mem _ hx))]
    simp

theorem attrLoop_at_gt (n : Nat) (l : List Char) (attrs : List (String × String)) :
    html.attrLoop (n + 1) ('>' :: l) attrs = (attrs, '>' :: l) := rfl

set_option maxHeartbeats 1000000 in
theorem parseNodeF_unterminated (fuel : Nat) (tag body : List Char) (htag : tag ≠ [])
    (hchars : ∀ c ∈ tag, ¬ c = ' ' ∧ ¬ c = '>' ∧ ¬ c = '/') (hbody : ∀ c ∈ body, ¬ c = '<')
    (hf : body.length + 1 < fuel) :
    html.parseNodeF fuel ('<' :: (tag ++ '>' :: body)) =
      .error ("Invalid HTML: Missing closing tag for " ++ ⟨tag.map toLowerChar⟩) := by
  obtain ⟨t0, ts, rfl⟩ : ∃ t0 ts, tag = t0 :: ts := by
    cases tag with
    | nil => exact absurd rfl htag
    | cons a as => exact ⟨a, as, rfl⟩
  cases fuel with
  | zero => omega
  | succ f =>
    have hp : ∀ c ∈ (t0 :: ts),
        (fun ch => !(ch == ' ' || ch == '>' || ch == '/')) c = true := by
      intro c hc
      obtain ⟨h1, h2, h3⟩ := hchars c hc
      simp [h1, h2, h3]
    have htake : ((t0 :: ts) ++ '>' :: body).takeWhile
        (fun ch => !(ch == ' ' || ch == '>' || ch == '/')) = t0 :: ts :=
      takeWhile_all_stop _ (t0 :: ts) '>' body hp (by decide)
    have hdrop : ((t0 :: ts) ++ '>' :: body).drop (t0 :: ts).length = '>' :: body :=
      List.drop_left _ _
    have ht0 : ¬ t0 = '/' := (hchars t0 (List.mem_cons_self t0 ts)).2.2
    rw [html.parseNodeF.eq_def]
    dsimp only
    rw [skipWs_cons_not_ws '<' (by decide) _]
    dsimp only
    rw [if_pos rfl]
    show (match t0 :: (ts ++ '>' :: body) with
      | [] => Except.error "Invalid HTML: Unexpected end of input"
      | c2 :: rest2 => _) = _
    dsimp only
    rw [if_neg ht0]
    simp only [List.append_eq]
    rw [List.cons_append] at htake hdrop
    rw [htake]
    rw [hdrop]
    rw [skipWs_cons_not_ws '>' (by decide)]
    simp only [List.length_cons]
    rw [attrLoop_at_gt]
    rw [if_neg (by simp)]
    dsimp only
    split
    · rename_i r heq
      exact absurd heq (by simp)
    · rename_i r heq
      have hr : body = r := by injection heq
      subst hr
      rw [parseBodyF_no_lt body f [] "" [] hbody (by omega)]
    · rename_i x h1 h2
      exact absurd rfl (h2 body)

/-- C5: `parse_html "<div><p>x"` fails with the single malformed-markup
error kind, and in general any input `<tag>body` whose body contains no
`<` (so the input ends while `tag` is still open, with no closing tag in
sight) is rejected with the missing-closing-tag error instead of
producing a node. -/
theorem parse_html_unterminated (tag body : List Char) (htag : tag ≠ [])
    (hchars : ∀ c ∈ tag, ¬ c = ' ' ∧ ¬ c = '>' ∧ ¬ c = '/') (hbody : ∀ c ∈ body, ¬ c = '<') :
    html.Deserializer.deserialize "<div><p>x" =
        .error "Invalid HTML: Missing closing tag for p" ∧
      html.Deserializer.deserialize ⟨'<' :: (tag ++ '>' :: body)⟩ =
        .error ("Invalid HTML: Missing closing tag for " ++ ⟨tag.map toLowerChar⟩) := by
  constructor
  · rfl
  · show (match html.parseNodeF (2 * ('<' :: (tag ++ '>' :: body)).length + 8)
        ('<' :: (tag ++ '>' :: body)) with
      | .error e => Except.error e
      | .ok (node, _) =>
        if node.tag = "" then Except.error "Invalid HTML: No root element found"
        else Except.ok node) = _
    rw [parseNodeF_unterminated _ tag body htag hchars hbody
      (by simp [List.length_append]; omega)]

theorem parse_html_unterminated_witness :
    html.Deserializer.deserialize ⟨'<' :: ("div".data ++ '>' :: "x".data)⟩ =
      .error ("Invalid HTML: Missing closing tag for " ++ ⟨"div".data.map toLowerChar⟩) :=
  (parse_html_unterminated "div".data "x".data (by decide) (by decide) (by decide)).2

/-- C9 counterexample: in `<a> x <b></b></a>` the text run `" x "`
preceding the child element is stored unescaped but NOT trimmed: the
parsed node's text is `" x "`, while trimming (which the claim asserts)
would have produced `"x"`. -/
theorem parse_html_pre_child_text_untrimmed :
    html.Deserializer.deserialize "<a> x <b></b></a>" =
        .ok (html.Node.mk "a" " x " [] [html.Node.mk "b" "" [] []]) ∧
      (⟨trimList " x ".data⟩ : String) ≠ " x " :=
  ⟨rfl, by decide⟩

theorem parseNodeF_a_step (f : Nat) (X : List Char) :
    html.parseNodeF (f + 1) ('<' :: 'a' :: '>' :: X) =
      (match html.parseBodyF f X [] "" [] with
       | .error e => .error e
       | .ok (nodeText, children, rem) =>
         match rem with
         | '<' :: '/' :: r2 =>
           if (r2.takeWhile (fun ch => !(ch == '>'))).map toLowerChar ≠ ['a'] then
             .error "Invalid HTML: Mismatched closing tag"
           else
             match r2.drop (r2.takeWhile (fun ch => !(ch == '>'))).length with
             | '>' :: r4 => .ok (html.Node.mk "a" nodeText [] children, r4)
             | _ => .error "Invalid HTML: Unclosed tag"
         | _ => .error ("Invalid HTML: Missing closing tag for " ++ "a")) := rfl

theorem parseNodeF_b_closed (g : Nat) (rest : List Char) :
    html.parseNodeF (g + 2) ('<' :: 'b' :: '>' :: '<' :: '/' :: 'b' :: '>' :: rest) =
      .ok (html.Node.mk "b" "" [] [], rest) := rfl

theorem parseBodyF_child_b (g : Nat) (rest acc : List Char) (nt : String)
    (ch : List html.Node) :
    html.parseBodyF (g + 1) ('<' :: 'b' :: rest) acc nt ch =
      (match html.parseNodeF g ('<' :: 'b' :: rest) with
       | .error e => .error e
       | .ok (child, rem) =>
         html.parseBodyF g rem []
           (if acc.isEmpty then nt else (⟨html.unescapeList acc⟩ : String))
           (if child.tag ≠ "" then ch ++ [child] else ch)) := rfl

theorem string_mk_of_ite_isEmpty (t : List Char) :
    (if t.isEmpty then ("" : String) else ⟨t⟩) = ⟨t⟩ := by
  cases t with
  | nil => rfl
  | cons c cs => rfl

theorem parseNodeF_ab (t1 t2 : List Char) (fuel : Nat)
    (h1lt : ∀ c ∈ t1, ¬ c = '<') (h2lt : ∀ c ∈ t2, ¬ c = '<')
    (h1amp : ∀ c ∈ t1, ¬ c = '&') (h2amp : ∀ c ∈ t2, ¬ c = '&')
    (hf : t1.length + t2.length + 6 ≤ fuel) :
    html.parseNodeF fuel
        ('<' :: 'a' :: '>' ::
          (t1 ++ ('<' :: 'b' :: '>' :: '<' :: '/' :: 'b' :: '>' ::
            (t2 ++ ('<' :: '/' :: 'a' :: '>' :: []))))) =
      .ok (html.Node.mk "a"
        (if t2.isEmpty then (⟨t1⟩ : String) else ⟨trimList t2⟩) []
        [html.Node.mk "b" "" [] []], []) := by
  obtain ⟨F1, rfl⟩ : ∃ F1, fuel = F1 + 1 := ⟨fuel - 1, by omega⟩
  rw [parseNodeF_a_step F1 _]
  obtain ⟨F2, rfl⟩ : ∃ F2, F1 = F2 + t1.length := ⟨F1 - t1.length, by omega⟩
  rw [parseBodyF_scan t1 F2 _ [] "" [] h1lt]
  simp only [List.nil_append]
  obtain ⟨F3, rfl⟩ : ∃ F3, F2 = F3 + 1 := ⟨F2 - 1, by omega⟩
  rw [parseBodyF_child_b F3 _ t1 "" []]
  obtain ⟨F4, rfl⟩ : ∃ F4, F3 = F4 + t2.length + 2 := ⟨F3 - t2.length - 2, by omega⟩
  rw [parseNodeF_b_closed (F4 + t2.length) (t2 ++ ['<', '/', 'a', '>'])]
  dsimp only
  simp only [html.Node.tag_mk]
  rw [if_pos (show ("b" : String) ≠ "" by decide)]
  simp only [List.nil_append]
  rw [show F4 + t2.length + 2 = (F4 + 2) + t2.length by omega]
  rw [parseBodyF_scan t2 (F4 + 2) _ [] _ _ h2lt]
  simp only [List.nil_append]
  rw [show F4 + 2 = (F4 + 1) + 1 by omega]
  rw [parseBodyF_close (F4 + 1) ('a' :: '>' :: []) t2 _ _]
  dsimp only
  show Except.ok (html.Node.mk "a"
      (html.finishText t2 (if t1.isEmpty = true then "" else (⟨html.unescapeList t1⟩ : String)))
      [] [html.Node.mk "b" "" [] []], ([] : List Char)) = _
  rw [unescapeList_no_amp t1 h1amp, string_mk_of_ite_isEmpty t1]
  simp only [html.finishText]
  rw [unescapeList_no_amp (trimList t2) (fun c hc => h2amp c (mem_trimList c t2 hc))]

/-- C9 amended: in a body `t1 <b></b> t2` (runs free of `<` and `&`),
the run before the child element is stored unescaped but untrimmed, the
run after the child overwrites it and only this final run is trimmed:
the node's text is `t1` exactly when `t2` is empty, and the trimmed
`t2` otherwise. -/
theorem parse_html_text_runs (t1 t2 : List Char)
    (h1lt : ∀ c ∈ t1, ¬ c = '<') (h2lt : ∀ c ∈ t2, ¬ c = '<')
    (h1amp : ∀ c ∈ t1, ¬ c = '&') (h2amp : ∀ c ∈ t2, ¬ c = '&') :
    html.Deserializer.deserialize
        ⟨"<a>".data ++ (t1 ++ ("<b></b>".data ++ (t2 ++ "</a>".data)))⟩ =
      .ok (html.Node.mk "a" (if t2.isEmpty then (⟨t1⟩ : String) else ⟨trimList t2⟩) []
        [html.Node.mk "b" "" [] []]) := by
  show (match html.parseNodeF
      (2 * ('<' :: 'a' :: '>' :: (t1 ++ ('<' :: 'b' :: '>' :: '<' :: '/' :: 'b' :: '>' ::
        (t2 ++ ('<' :: '/' :: 'a' :: '>' :: []))))).length + 8)
      ('<' :: 'a' :: '>' :: (t1 ++ ('<' :: 'b' :: '>' :: '<' :: '/' :: 'b' :: '>' ::
        (t2 ++ ('<' :: '/' :: 'a' :: '>' :: []))))) with
    | .error e => Except.error e
    | .ok (node, _) =>
      if node.tag = "" then Except.error "Invalid HTML: No root element found"
      else Except.ok node) = _
  rw [parseNodeF_ab t1 t2 _ h1lt h2lt h1amp h2amp (by simp [List.length_append]; omega)]
  dsimp only
  simp only [html.Node.tag_mk]
  rw [if_neg (show ¬ ("a" : String) = "" by decide)]

theorem parse_html_text_runs_witness :
    html.Deserializer.deserialize
        ⟨"<a>".data ++ (" x ".data ++ ("<b></b>".data ++ (" y ".data ++ "</a>".data)))⟩ =
      .ok (html.Node.mk "a" ⟨trimList " y ".data⟩ [] [html.Node.mk "b" "" [] []]) := by
  rw [parse_html_text_runs " x ".data " y ".data (by decide) (by decide) (by decide) (by decide)]
  rfl

/-! ## Markdown AST model (`markdown::Node`) and serializers -/

/-- Child-at-a-time `Option` traversal: the C++ loops abort at the
first thrown exception, so a `none` child aborts the whole result. -/
def mapO {α β : Type} (f : α → Option β) : List α → Option (List β)
  | [] => some []
  | a :: as =>
    match f a with
    | none => none
    | some b =>
      match mapO f as with
      | none => none
      | some bs => some (b :: bs)

namespace markdown

/-- `markdown::NodeType`. -/
inductive NodeType where
  | Document | Heading | Paragraph | CodeBlock | InlineCode | Bold | Italic
  | Link | Image | List | ListItem | Quote | Table | TableRow | TableCell
  | Text | LineBreak | HorizontalRule
  deriving DecidableEq

/-- `markdown::Node`: kind, text payload, attribute map, children and
heading level (a C++ `int`, hence `Int`). -/
inductive Node where
  | mk (type : NodeType) (text : String) (attributes : List (String × String))
      (children : List Node) (level : Int)

def Node.type : Node → NodeType
  | .mk t _ _ _ _ => t

def Node.text : Node → String
  | .mk _ x _ _ _ => x

def Node.attributes : Node → List (String × String)
  | .mk _ _ a _ _ => a

def Node.children : Node → List Node
  | .mk _ _ _ c _ => c

def Node.level : Node → Int
  | .mk _ _ _ _ l => l

@[simp] theorem Node.type_mk (t : NodeType) (x : String) (a : List (String × String))
    (c : List Node) (l : Int) : (Node.mk t x a c l).type = t := rfl

@[simp] theorem Node.mdText_mk (t : NodeType) (x : String) (a : List (String × String))
    (c : List Node) (l : Int) : (Node.mk t x a c l).text = x := rfl

@[simp] theorem Node.mdAttributes_mk (t : NodeType) (x : String) (a : List (String × String))
    (c : List Node) (l : Int) : (Node.mk t x a c l).attributes = a := rfl

@[simp] theorem Node.mdChildren_mk (t : NodeType) (x : String) (a : List (String × String))
    (c : List Node) (l : Int) : (Node.mk t x a c l).children = c := rfl

@[simp] theorem Node.level_mk (t : NodeType) (x : String) (a : List (String × String))
    (c : List Node) (l : Int) : (Node.mk t x a c l).level = l := rfl

mutual

/-- Executable tree size, used as recursion fuel. -/
def nodeSize : Node → Nat
  | .mk _ _ _ children _ => 1 + nodeListSize children

def nodeListSize : List Node → Nat
  | [] => 0
  | c :: cs => nodeSize c + nodeListSize cs

end

/-- The block node kinds after which `serialize_markdown_node` emits a
separating newline inside a `Document`. -/
def isBlockChild (t : NodeType) : Bool :=
  match t with
  | .Paragraph | .Heading | .CodeBlock | .List | .Quote | .Table | .HorizontalRule => true
  | _ => false

/-- `markdown::Serializer::serialize_markdown_node`, fuelled.  Failure
(`none`) models the C++ exceptions: `map::at` on a missing `href`,
`src` or `alt` key, and `std::string(level, '#')` with a negative
`level` (the `int → size_t` conversion makes the constructor throw). -/
def serializeMdFuel : Nat → Node → Nat → Option String
  | 0, _, _ => none
  | fuel + 1, node, depth =>
    match node.type with
    | .Document =>
      match mapO (fun c => (serializeMdFuel fuel c depth).map
          (fun s => s ++ (if isBlockChild c.type then "\n" else ""))) node.children with
      | none => none
      | some parts => some (String.join parts)
    | .Heading =>
      if node.level < 0 then none
      else some (⟨List.replicate node.level.toNat '#'⟩ ++ " " ++ node.text ++ "\n")
    | .Paragraph =>
      match mapO (fun c => serializeMdFuel fuel c depth) node.children with
      | none => none
      | some parts =>
        some (String.join parts ++ (if node.text ≠ "" then node.text else "") ++ "\n")
    | .CodeBlock =>
      some ("```" ++ ((html.attrLookup node.attributes "language").getD "") ++ "\n" ++
        node.text ++ "\n```\n")
    | .InlineCode => some ("`" ++ node.text ++ "`")
    | .Bold =>
      match mapO (fun c => serializeMdFuel fuel c depth) node.children with
      | none => none
      | some parts =>
        some ("**" ++ String.join parts ++ (if node.text ≠ "" then node.text else "") ++ "**")
    | .Italic =>
      match mapO (fun c => serializeMdFuel fuel c depth) node.children with
      | none => none
      | some parts =>
        some ("*" ++ String.join parts ++ (if node.text ≠ "" then node.text else "") ++ "*")
    | .Link =>
      match html.attrLookup node.attributes "href" with
      | none => none
      | some href => some ("[" ++ node.text ++ "](" ++ href ++ ")")
    | .Image =>
      match html.attrLookup node.attributes "alt" with
      | none => none
      | some alt =>
        match html.attrLookup node.attributes "src" with
        | none => none
        | some src => some ("![" ++ alt ++ "](" ++ src ++ ")")
    | .List =>
      match mapO (fun c => serializeMdFuel fuel c depth) node.children with
      | none => none
      | some parts => some (String.join parts)
    | .ListItem =>
      match mapO (fun c => serializeMdFuel fuel c (depth + 1)) node.children with
      | none => none
      | some parts =>
        some (⟨List.replicate (depth * 2) ' '⟩ ++
          (match html.attrLookup node.attributes "ordered" with
           | some v => if v = "true" then "1. " else "- "
           | none => "- ") ++
          String.join parts ++ (if node.text ≠ "" then node.text else "") ++ "\n")
    | .Quote =>
      match mapO (fun c => serializeMdFuel fuel c depth) node.children with
      | none => none
      | some parts =>
        some ("> " ++ String.join parts ++ (if node.text ≠ "" then node.text else "") ++ "\n")
    | .Table =>
      match node.children with
      | [] => some ""
      | first :: rest =>
        match serializeMdFuel fuel first depth with
        | none => none
        | some s =>
          match mapO (fun c => serializeMdFuel fuel c depth) rest with
          | none => none
          | some parts =>
            some (s ++ "|" ++ String.join (List.replicate first.children.length " --- |") ++
              "\n" ++ String.join parts)
    | .TableRow =>
      match mapO (fun c => (serializeMdFuel fuel c depth).map
          (fun s => " " ++ s ++ " |")) node.children with
      | none => none
      | some parts => some ("|" ++ String.join parts ++ "\n")
    | .TableCell =>
      match mapO (fun c => serializeMdFuel fuel c depth) node.children with
      | none => none
      | some parts => some ((if node.text ≠ "" then node.text else "") ++ String.join parts)
    | .Text => some node.text
    | .LineBreak => some "  \n"
    | .HorizontalRule => some "---\n"

/-- `markdown::Serializer::convert_to_html_node`, fuelled; `none`
models `map::at` throwing on a `Link` without `href` or an `Image`
without `src`/`alt`. -/
def convertFuel : Nat → Node → Option html.Node
  | 0, _ => none
  | fuel + 1, node =>
    match node.type with
    | .Document =>
      match mapO (convertFuel fuel) node.children with
      | none => none
      | some cs => some (html.Node.mk "div" "" [] cs)
    | .Heading =>
      some (html.Node.mk ("h" ++ toString node.level) node.text
        (html.attrInsert [] "class" "heading-primary") [])
    | .Paragraph =>
      match mapO (convertFuel fuel) node.children with
      | none => none
      | some cs =>
        some (html.Node.mk "p" "" (html.attrInsert [] "class" "paragraph")
          (cs ++ (if node.text ≠ "" then [html.Node.mk "" node.text [] []] else [])))
    | .CodeBlock =>
      some (html.Node.mk "pre" "" (html.attrInsert [] "class" "code-block")
        [html.Node.mk "code" node.text
          (match html.attrLookup node.attributes "language" with
           | some lang => html.attrInsert [] "class" ("language-" ++ lang)
           | none => []) []])
    | .InlineCode =>
      some (html.Node.mk "code" node.text (html.attrInsert [] "class" "inline-code") [])
    | .Bold =>
      match mapO (convertFuel fuel) node.children with
      | none => none
      | some cs =>
        some (html.Node.mk "strong" "" (html.attrInsert [] "class" "bold")
          (cs ++ (if node.text ≠ "" then [html.Node.mk "" node.text [] []] else [])))
    | .Italic =>
      match mapO (convertFuel fuel) node.children with
      | none => none
      | some cs =>
        some (html.Node.mk "em" "" (html.attrInsert [] "class" "italic")
          (cs ++ (if node.text ≠ "" then [html.Node.mk "" node.text [] []] else [])))
    | .Link =>
      match html.attrLookup node.attributes "href" with
      | none => none
      | some href =>
        some (html.Node.mk "a" node.text
          (html.attrInsert (html.attrInsert [] "href" href) "class" "link") [])
    | .Image =>
      match html.attrLookup node.attributes "src" with
      | none => none
      | some src =>
        match html.attrLookup node.attributes "alt" with
        | none => none
        | some alt =>
          some (html.Node.mk "img" ""
            (html.attrInsert (html.attrInsert (html.attrInsert [] "src" src) "alt" alt)
              "class" "image") [])
    | .List =>
      match mapO (convertFuel fuel) node.children with
      | none => none
      | some cs => some (html.Node.mk "ul" "" (html.attrInsert [] "class" "list") cs)
    | .ListItem =>
      match mapO (convertFuel fuel) node.children with
      | none => none
      | some cs =>
        some (html.Node.mk "li" "" (html.attrInsert [] "class" "list-item")
          (cs ++ (if node.text ≠ "" then [html.Node.mk "" node.text [] []] else [])))
    | .Quote =>
      match mapO (convertFuel fuel) node.children with
      | none => none
      | some cs =>
        some (html.Node.mk "blockquote" "" (html.attrInsert [] "class" "quote")
          (cs ++ (if node.text ≠ "" then [html.Node.mk "" node.text [] []] else [])))
    | .Table =>
      match mapO (convertFuel fuel) node.children with
      | none => none
      | some cs => some (html.Node.mk "table" "" (html.attrInsert [] "class" "table") cs)
    | .TableRow =>
      match mapO (convertFuel fuel) node.children with
      | none => none
      | some cs => some (html.Node.mk "tr" "" (html.attrInsert [] "class" "table-row") cs)
    | .TableCell =>
      match mapO (convertFuel fuel) node.children with
      | none => none
      | some cs =>
        some (html.Node.mk "td" "" (html.attrInsert [] "class" "table-cell")
          (cs ++ (if node.text ≠ "" then [html.Node.mk "" node.text [] []] else [])))
    | .Text => some (html.Node.mk "" node.text [] [])
    | .LineBreak =>
      some (html.Node.mk "br" "" (html.attrInsert [] "class" "line-break") [])
    | .HorizontalRule =>
      some (html.Node.mk "hr" "" (html.attrInsert [] "class" "horizontal-rule") [])

/-- `markdown::Serializer::markdown` (`render_markdown`). -/
def Serializer.markdown (node : Node) : Option String :=
  serializeMdFuel (nodeSize node) node 0

/-- `markdown::Serializer::html` (`render_html`): convert to a tag
tree, then delegate to the (total) tag-tree serializer. -/
def Serializer.html (node : Node) : Option String :=
  (convertFuel (nodeSize node) node).map (fun h => html.Serializer.serialize h 0)

end markdown

theorem isSome_map_eq {α β : Type} (o : Option α) (g : α → β) :
    (o.map g).isSome = o.isSome := by
  cases o <;> rfl

theorem mapO_isSome {α β : Type} (f : α → Option β) (l : List α)
    (h : ∀ a ∈ l, (f a).isSome = true) : (mapO f l).isSome = true := by
  induction l with
  | nil => rfl
  | cons a as ih =>
    have ha := h a (List.mem_cons_self a as)
    obtain ⟨b, hb⟩ := Option.isSome_iff_exists.mp ha
    have has := ih (fun x hx => h x (List.mem_cons_of_mem _ hx))
    obtain ⟨bs, hbs⟩ := Option.isSome_iff_exists.mp has
    show (match f a with
      | none => none
      | some b =>
        match mapO f as with
        | none => none
        | some bs => some (b :: bs)).isSome = true
    rw [hb, hbs]
    rfl

namespace markdown

theorem mdNode_size_pos (node : Node) : 0 < nodeSize node := by
  cases node with
  | mk t x a c l => simp [nodeSize]

theorem mdNodeListSize_le_of_mem (c : Node) : ∀ (l : List Node), c ∈ l →
    nodeSize c ≤ nodeListSize l := by
  intro l
  induction l with
  | nil => intro h; cases h
  | cons a as ih =>
    intro h
    rw [nodeListSize]
    rcases List.mem_cons.mp h with rfl | h'
    · omega
    · have := ih h'
      omega

theorem mdChild_size_lt (t : NodeType) (x : String) (a : List (String × String))
    (children : List Node) (l : Int) (c : Node) (hc : c ∈ children) :
    nodeSize c < nodeSize (Node.mk t x a children l) := by
  have h1 := mdNodeListSize_le_of_mem c children hc
  rw [nodeSize]
  omega

/-- The per-node requirement under which both renderers are total: a
`Link` carries `href`, an `Image` carries `src` and `alt`, a `Heading`
has non-negative level. -/
def localOk (node : Node) : Bool :=
  match node.type with
  | .Link => (html.attrLookup node.attributes "href").isSome
  | .Image =>
    (html.attrLookup node.attributes "src").isSome &&
      (html.attrLookup node.attributes "alt").isSome
  | .Heading => decide (0 ≤ node.level)
  | _ => true

def wellAttrFuel : Nat → Node → Bool
  | 0, _ => false
  | fuel + 1, node => localOk node && node.children.all (fun c => wellAttrFuel fuel c)

/-- `localOk` holding at every node of the tree. -/
def wellAttributed (node : Node) : Bool :=
  wellAttrFuel (nodeSize node) node

theorem wellAttr_destruct (a : Nat) (t : NodeType) (x : String) (at_ : List (String × String))
    (children : List Node) (l : Int)
    (h : wellAttrFuel (a + 1) (Node.mk t x at_ children l) = true) :
    localOk (Node.mk t x at_ children l) = true ∧ ∀ c ∈ children, wellAttrFuel a c = true := by
  simp only [wellAttrFuel, Bool.and_eq_true, List.all_eq_true, Node.mdChildren_mk] at h
  exact ⟨h.1, h.2⟩

theorem md_render_some (bound : Nat) : ∀ (n : Node), nodeSize n ≤ bound →
    ∀ (fw fs d : Nat), nodeSize n ≤ fw → nodeSize n ≤ fs → wellAttrFuel fw n = true →
    (serializeMdFuel fs n d).isSome = true := by
  induction bound with
  | zero =>
    intro n hb _ _ _ _ _ _
    exact absurd hb (by have := mdNode_size_pos n; omega)
  | succ bd ih =>
    intro n hb fw fs d hfw hfs hwa
    have hpos := mdNode_size_pos n
    cases fw with
    | zero => omega
    | succ a =>
      cases fs with
      | zero => omega
      | succ b =>
        cases n with
        | mk ty x attrs children lvl =>
          obtain ⟨hl, hca⟩ := wellAttr_destruct a ty x attrs children lvl hwa
          have hchild : ∀ c ∈ children, ∀ d' : Nat, (serializeMdFuel b c d').isSome = true := by
            intro c hc d'
            have hlt := mdChild_size_lt ty x attrs children lvl c hc
            exact ih c (by omega) a b d' (by omega) (by omega) (hca c hc)
          cases ty
          case Document =>
            have hm := mapO_isSome (fun c => (serializeMdFuel b c d).map
              (fun s => s ++ (if isBlockChild c.type then "\n" else ""))) children
              (fun c hc => by rw [isSome_map_eq]; exact hchild c hc d)
            obtain ⟨parts, hp⟩ := Option.isSome_iff_exists.mp hm
            simp only [serializeMdFuel, Node.type_mk, Node.mdChildren_mk]
            rw [hp]
            rfl
          case Heading =>
            simp only [serializeMdFuel, Node.type_mk, Node.level_mk, Node.mdText_mk]
            have : ¬ lvl < 0 := by
              simp only [localOk, Node.type_mk, Node.level_mk, decide_eq_true_eq] at hl
              omega
            rw [if_neg this]
            rfl
          case Paragraph =>
            have hm := mapO_isSome (fun c => serializeMdFuel b c d) children
              (fun c hc => hchild c hc d)
            obtain ⟨parts, hp⟩ := Option.isSome_iff_exists.mp hm
            simp only [serializeMdFuel, Node.type_mk, Node.mdChildren_mk, Node.mdText_mk]
            rw [hp]
            rfl
          case CodeBlock =>
            simp only [serializeMdFuel, Node.type_mk]
            rfl
          case InlineCode =>
            simp only [serializeMdFuel, Node.type_mk]
            rfl
          case Bold =>
            have hm := mapO_isSome (fun c => serializeMdFuel b c d) children
              (fun c hc => hchild c hc d)
            obtain ⟨parts, hp⟩ := Option.isSome_iff_exists.mp hm
            simp only [serializeMdFuel, Node.type_mk, Node.mdChildren_mk, Node.mdText_mk]
            rw [hp]
            rfl
          case Italic =>
            have hm := mapO_isSome (fun c => serializeMdFuel b c d) children
              (fun c hc => hchild c hc d)
            obtain ⟨parts, hp⟩ := Option.isSome_iff_exists.mp hm
            simp only [serializeMdFuel, Node.type_mk, Node.mdChildren_mk, Node.mdText_mk]
            rw [hp]
            rfl
          case Link =>
            simp only [localOk, Node.type_mk, Node.mdAttributes_mk] at hl
            obtain ⟨href, hh⟩ := Option.isSome_iff_exists.mp hl
            simp only [serializeMdFuel, Node.type_mk, Node.mdAttributes_mk, Node.mdText_mk]
            rw [hh]
            rfl
          case Image =>
            simp only [localOk, Node.type_mk, Node.mdAttributes_mk, Bool.and_eq_true] at hl
            obtain ⟨src, hs⟩ := Option.isSome_iff_exists.mp hl.1
            obtain ⟨alt, ha⟩ := Option.isSome_iff_exists.mp hl.2
            simp only [serializeMdFuel, Node.type_mk, Node.mdAttributes_mk]
            rw [hs, ha]
            rfl
          case List =>
            have hm := mapO_isSome (fun c => serializeMdFuel b c d) children
              (fun c hc => hchild c hc d)
            obtain ⟨parts, hp⟩ := Option.isSome_iff_exists.mp hm
            simp only [serializeMdFuel, Node.type_mk, Node.mdChildren_mk]
            rw [hp]
            rfl
          case ListItem =>
            have hm := mapO_isSome (fun c => serializeMdFuel b c (d + 1)) children
              (fun c hc => hchild c hc (d + 1))
            obtain ⟨parts, hp⟩ := Option.isSome_iff_exists.mp hm
            simp only [serializeMdFuel, Node.type_mk, Node.mdChildren_mk, Node.mdText_mk,
              Node.mdAttributes_mk]
            rw [hp]
            rfl
          case Quote =>
            have hm := mapO_isSome (fun c => serializeMdFuel b c d) children
              (fun c hc => hchild c hc d)
            obtain ⟨parts, hp⟩ := Option.isSome_iff_exists.mp hm
            simp only [serializeMdFuel, Node.type_mk, Node.mdChildren_mk, Node.mdText_mk]
            rw [hp]
            rfl
          case Table =>
            simp only [serializeMdFuel, Node.type_mk, Node.mdChildren_mk]
            cases children with
            | nil => rfl
            | cons first rest =>
              have hf := hchild first (List.mem_cons_self first rest) d
              obtain ⟨s, hsf⟩ := Option.isSome_iff_exists.mp hf
              have hm := mapO_isSome (fun c => serializeMdFuel b c d) rest
                (fun c hc => hchild c (List.mem_cons_of_mem _ hc) d)
              obtain ⟨parts, hp⟩ := Option.isSome_iff_exists.mp hm
              dsimp only
              rw [hsf, hp]
              rfl
          case TableRow =>
            have hm := mapO_isSome (fun c => (serializeMdFuel b c d).map
              (fun s => " " ++ s ++ " |")) children
              (fun c hc => by rw [isSome_map_eq]; exact hchild c hc d)
            obtain ⟨parts, hp⟩ := Option.isSome_iff_exists.mp hm
            simp only [serializeMdFuel, Node.type_mk, Node.mdChildren_mk]
            rw [hp]
            rfl
          case TableCell =>
            have hm := mapO_isSome (fun c => serializeMdFuel b c d) children
              (fun c hc => hchild c hc d)
            obtain ⟨parts, hp⟩ := Option.isSome_iff_exists.mp hm
            simp only [serializeMdFuel, Node.type_mk, Node.mdChildren_mk, Node.mdText_mk]
            rw [hp]
            rfl
          case Text =>
            simp only [serializeMdFuel, Node.type_mk]
            rfl
          case LineBreak =>
            simp only [serializeMdFuel, Node.type_mk]
            rfl
          case HorizontalRule =>
            simp only [serializeMdFuel, Node.type_mk]
            rfl

end markdown

namespace markdown

theorem md_convert_some (bound : Nat) : ∀ (n : Node), nodeSize n ≤ bound →
    ∀ (fw fs : Nat), nodeSize n ≤ fw → nodeSize n ≤ fs → wellAttrFuel fw n = true →
    (convertFuel fs n).isSome = true := by
  induction bound with
  | zero =>
    intro n hb _ _ _ _ _
    exact absurd hb (by have := mdNode_size_pos n; omega)
  | succ bd ih =>
    intro n hb fw fs hfw hfs hwa
    have hpos := mdNode_size_pos n
    cases fw with
    | zero => omega
    | succ a =>
      cases fs with
      | zero => omega
      | succ b =>
        cases n with
        | mk ty x attrs children lvl =>
          obtain ⟨hl, hca⟩ := wellAttr_destruct a ty x attrs children lvl hwa
          have hchild : ∀ c ∈ children, (convertFuel b c).isSome = true := by
            intro c hc
            have hlt := mdChild_size_lt ty x attrs children lvl c hc
            exact ih c (by omega) a b (by omega) (by omega) (hca c hc)
          have hm := mapO_isSome (convertFuel b) children hchild
          obtain ⟨cs, hcs⟩ := Option.isSome_iff_exists.mp hm
          cases ty
          case Document =>
            simp only [convertFuel, Node.type_mk, Node.mdChildren_mk]
            rw [hcs]
            rfl
          case Heading =>
            simp only [convertFuel, Node.type_mk]
            rfl
          case Paragraph =>
            simp only [convertFuel, Node.type_mk, Node.mdChildren_mk, Node.mdText_mk]
            rw [hcs]
            rfl
          case CodeBlock =>
            simp only [convertFuel, Node.type_mk]
            rfl
          case InlineCode =>
            simp only [convertFuel, Node.type_mk]
            rfl
          case Bold =>
            simp only [convertFuel, Node.type_mk, Node.mdChildren_mk, Node.mdText_mk]
            rw [hcs]
            rfl
          case Italic =>
            simp only [convertFuel, Node.type_mk, Node.mdChildren_mk, Node.mdText_mk]
            rw [hcs]
            rfl
          case Link =>
            simp only [localOk, Node.type_mk, Node.mdAttributes_mk] at hl
            obtain ⟨href, hh⟩ := Option.isSome_iff_exists.mp hl
            simp only [convertFuel, Node.type_mk, Node.mdAttributes_mk, Node.mdText_mk]
            rw [hh]
            rfl
          case Image =>
            simp only [localOk, Node.type_mk, Node.mdAttributes_mk, Bool.and_eq_true] at hl
            obtain ⟨src, hs⟩ := Option.isSome_iff_exists.mp hl.1
            obtain ⟨alt, ha⟩ := Option.isSome_iff_exists.mp hl.2
            simp only [convertFuel, Node.type_mk, Node.mdAttributes_mk]
            rw [hs, ha]
            rfl
          case List =>
            simp only [convertFuel, Node.type_mk, Node.mdChildren_mk]
            rw [hcs]
            rfl
          case ListItem =>
            simp only [convertFuel, Node.type_mk, Node.mdChildren_mk, Node.mdText_mk]
            rw [hcs]
            rfl
          case Quote =>
            simp only [convertFuel, Node.type_mk, Node.mdChildren_mk, Node.mdText_mk]
            rw [hcs]
            rfl
          case Table =>
            simp only [convertFuel, Node.type_mk, Node.mdChildren_mk]
            rw [hcs]
            rfl
          case TableRow =>
            simp only [convertFuel, Node.type_mk, Node.mdChildren_mk]
            rw [hcs]
            rfl
          case TableCell =>
            simp only [convertFuel, Node.type_mk, Node.mdChildren_mk, Node.mdText_mk]
            rw [hcs]
            rfl
          case Text =>
            simp only [convertFuel, Node.type_mk]
            rfl
          case LineBreak =>
            simp only [convertFuel, Node.type_mk]
            rfl
          case HorizontalRule =>
            simp only [convertFuel, Node.type_mk]
            rfl

end markdown

/-- C1 counterexample: a hand-constructed `Link` node whose attribute
map lacks `href` makes both renderers fail (`map::at` throws), so
neither `render_markdown` nor `render_html` is total on all nodes. -/
theorem render_link_without_href_fails :
    markdown.Serializer.markdown (markdown.Node.mk .Link "x" [] [] 0) = none ∧
      markdown.Serializer.html (markdown.Node.mk .Link "x" [] [] 0) = none :=
  ⟨rfl, rfl⟩

/-- C1 amended: `render_markdown` and `render_html` return a string for
every node in whose tree each `Link` carries an `href` attribute, each
`Image` carries `src` and `alt` attributes, and each `Heading` level is
non-negative; without these conditions they can fail
(`render_link_without_href_fails`). -/
theorem render_total_of_wellAttributed (n : markdown.Node)
    (h : markdown.wellAttributed n = true) :
    (markdown.Serializer.markdown n).isSome = true ∧
      (markdown.Serializer.html n).isSome = true := by
  constructor
  · exact markdown.md_render_some (markdown.nodeSize n) n (Nat.le_refl _)
      (markdown.nodeSize n) (markdown.nodeSize n) 0 (Nat.le_refl _) (Nat.le_refl _) h
  · show ((markdown.convertFuel (markdown.nodeSize n) n).map _).isSome = true
    rw [isSome_map_eq]
    exact markdown.md_convert_some (markdown.nodeSize n) n (Nat.le_refl _)
      (markdown.nodeSize n) (markdown.nodeSize n) (Nat.le_refl _) (Nat.le_refl _) h

theorem render_total_witness :
    (markdown.wellAttributed
        (markdown.Node.mk .Document "" []
          [markdown.Node.mk .Heading "T" [] [] 1,
           markdown.Node.mk .Link "x" [("href", "u")] [] 0,
           markdown.Node.mk .Image "" [("alt", "a"), ("src", "s")] [] 0] 0) = true) ∧
      (markdown.Serializer.markdown
        (markdown.Node.mk .Document "" []
          [markdown.Node.mk .Heading "T" [] [] 1,
           markdown.Node.mk .Link "x" [("href", "u")] [] 0,
           markdown.Node.mk .Image "" [("alt", "a"), ("src", "s")] [] 0] 0)).isSome = true :=
  ⟨by decide,
    (render_total_of_wellAttributed
      (markdown.Node.mk .Document "" []
        [markdown.Node.mk .Heading "T" [] [] 1,
         markdown.Node.mk .Link "x" [("href", "u")] [] 0,
         markdown.Node.mk .Image "" [("alt", "a"), ("src", "s")] [] 0] 0) (by decide)).1⟩

namespace markdown

/-! ## Inline tokenizer (`markdown::Deserializer::parse_inline`)

Each `std::regex_search` call is embedded as an explicit leftmost-match
scanner faithful to the pattern's semantics (lazy `.*?` = nearest
closer, greedy character classes = maximal runs, `.` never matches a
newline). -/

/-- Index of the first `**` in the list, with no intervening newline
(the closer for the lazy `\*\*(.*?)\*\*` body). -/
def findStars2 : List Char → Option Nat
  | '*' :: '*' :: _ => some 0
  | '\n' :: _ => none
  | _ :: rest => (findStars2 rest).map (fun k => k + 1)
  | [] => none

/-- `\*\*(.*?)\*\*` anchored at the head: content and match length. -/
def matchBoldAt : List Char → Option (List Char × Nat)
  | '*' :: '*' :: rest => (findStars2 rest).map (fun k => (rest.take k, k + 4))
  | _ => none

/-- Index of the first `*`, with no intervening newline. -/
def findStar1 : List Char → Option Nat
  | '*' :: _ => some 0
  | '\n' :: _ => none
  | _ :: rest => (findStar1 rest).map (fun k => k + 1)
  | [] => none

/-- `\*(.*?)\*` anchored at the head. -/
def matchItalicAt : List Char → Option (List Char × Nat)
  | '*' :: rest => (findStar1 rest).map (fun k => (rest.take k, k + 2))
  | _ => none

/-- `` `([^`]+)` `` anchored at the head: a non-empty maximal backtick-free
run followed by the closing backtick. -/
def matchCodeAt : List Char → Option (List Char × Nat)
  | '`' :: rest =>
    let content := rest.takeWhile (fun ch => !(ch == '`'))
    if content.isEmpty then none
    else if content.length < rest.length then some (content, content.length + 2)
    else none
  | _ => none

/-- `\[([^\]]+)\]\(([^)]+)\)` anchored at the head. -/
def matchLinkAt : List Char → Option (List Char × List Char × Nat)
  | '[' :: rest =>
    let t := rest.takeWhile (fun ch => !(ch == ']'))
    if t.isEmpty then none
    else
      match rest.drop t.length with
      | ']' :: '(' :: rest2 =>
        let h := rest2.takeWhile (fun ch => !(ch == ')'))
        if h.isEmpty then none
        else if h.length < rest2.length then some (t, h, t.length + h.length + 4)
        else none
      | _ => none
  | _ => none

/-- `!\[([^\]]*)\]\(([^)]+)\)` anchored at the head (the alt text may
be empty). -/
def matchImageAt : List Char → Option (List Char × List Char × Nat)
  | '!' :: '[' :: rest =>
    let a := rest.takeWhile (fun ch => !(ch == ']'))
    match rest.drop a.length with
    | ']' :: '(' :: rest2 =>
      let s := rest2.takeWhile (fun ch => !(ch == ')'))
      if s.isEmpty then none
      else if s.length < rest2.length then some (a, s, a.length + s.length + 5)
      else none
    | _ => none
  | _ => none

/-- `std::regex_search`: the anchored matcher `f` applied at the
leftmost position where it succeeds, together with that position. -/
def searchAt {α : Type} (f : List Char → Option α) : List Char → Option (Nat × α)
  | [] => (f []).map (fun a => (0, a))
  | c :: rest =>
    match f (c :: rest) with
    | some a => some (0, a)
    | none => (searchAt f rest).map (fun p => (p.1 + 1, p.2))

/-- The `parse_inline` scanning loop: bold, italic, code, link, image
are searched for in priority order over the remaining text; the text
before the first match is flushed as a `Text` node, the match becomes a
typed node, and the loop continues after it; with no match the
remainder becomes one `Text` node.  Fuel: every iteration consumes at
least two characters. -/
def parseInlineFuel : Nat → List Char → List Node
  | 0, _ => []
  | _ + 1, [] => []
  | fuel + 1, c :: cs =>
    let rem := c :: cs
    match searchAt matchBoldAt rem with
    | some (p, content, len) =>
      (if 0 < p then [Node.mk .Text ⟨rem.take p⟩ [] [] 0] else []) ++
        Node.mk .Bold ⟨content⟩ [] [] 0 :: parseInlineFuel fuel (rem.drop (p + len))
    | none =>
      match searchAt matchItalicAt rem with
      | some (p, content, len) =>
        (if 0 < p then [Node.mk .Text ⟨rem.take p⟩ [] [] 0] else []) ++
          Node.mk .Italic ⟨content⟩ [] [] 0 :: parseInlineFuel fuel (rem.drop (p + len))
      | none =>
        match searchAt matchCodeAt rem with
        | some (p, content, len) =>
          (if 0 < p then [Node.mk .Text ⟨rem.take p⟩ [] [] 0] else []) ++
            Node.mk .InlineCode ⟨content⟩ [] [] 0 :: parseInlineFuel fuel (rem.drop (p + len))
        | none =>
          match searchAt matchLinkAt rem with
          | some (p, t, href, len) =>
            (if 0 < p then [Node.mk .Text ⟨rem.take p⟩ [] [] 0] else []) ++
              Node.mk .Link ⟨t⟩ (html.attrInsert [] "href" ⟨href⟩) [] 0 ::
                parseInlineFuel fuel (rem.drop (p + len))
          | none =>
            match searchAt matchImageAt rem with
            | some (p, alt, src, len) =>
              (if 0 < p then [Node.mk .Text ⟨rem.take p⟩ [] [] 0] else []) ++
                Node.mk .Image ""
                    (html.attrInsert (html.attrInsert [] "alt" ⟨alt⟩) "src" ⟨src⟩) [] 0 ::
                  parseInlineFuel fuel (rem.drop (p + len))
            | none => [Node.mk .Text ⟨rem⟩ [] [] 0]

/-- `markdown::Deserializer::parse_inline`: returns the children
appended to the (freshly created) parent node.  Every call site passes
a node with no children, so the final `parent.children.empty()` check
of the C++ code reduces to the emptiness of the produced list. -/
def parseInline (text : List Char) : List Node :=
  if text.isEmpty then []
  else
    let r := parseInlineFuel (text.length + 1) text
    if r.isEmpty && !text.isEmpty then [Node.mk .Text ⟨text⟩ [] [] 0] else r

end markdown

namespace markdown

/-! ## Block parser (`markdown::Deserializer::parse_block` and
`deserialize`)

The `std::regex_match` calls (whole-line matches) are embedded as
explicit decompositions faithful to each pattern, including the greedy
backtracking of `\s+(.+)$` (when everything after the marker is
whitespace, `\s+` gives back one final non-newline character to `.+`). -/

/-- The common suffix `\s+(.+)$` of the heading and bullet patterns:
at least one whitespace character, then a non-empty remainder with no
newline; if the rest is all whitespace, backtracking leaves exactly the
last character to `.+` (failing when it is a newline). -/
def wsPlusContent (rest : List Char) : Option (List Char) :=
  let w := rest.takeWhile isWsChar
  let c := rest.drop w.length
  if w.isEmpty then none
  else if c.isEmpty then
    if 2 ≤ w.length then
      match rest.getLast? with
      | some ch => if ch = '\n' then none else some [ch]
      | none => none
    else none
  else if c.contains '\n' then none else some c

/-- Length of the leading `#` run. -/
def hashRun (l : List Char) : Nat :=
  (l.takeWhile (fun ch => ch == '#')).length

/-- `regex_match(line, "^(#{1,6})\s+(.+)$")`: heading level and text. -/
def headingMatch (l : List Char) : Option (Nat × List Char) :=
  let k := hashRun l
  if 1 ≤ k ∧ k ≤ 6 then (wsPlusContent (l.drop k)).map (fun c => (k, c)) else none

/-- `regex_match(line, "^#{1,6}\s+")` — a WHOLE-line match, so it holds
only for 1-6 `#` followed by nothing but whitespace (at least one).
This is the paragraph-interruption check of the paragraph fallback. -/
def headingBreakLine (l : List Char) : Bool :=
  let k := hashRun l
  let rest := l.drop k
  decide (1 ≤ k) && decide (k ≤ 6) && !rest.isEmpty && rest.all isWsChar

/-- `regex_match(line, "^\s*[-*_]{3,}\s*$")`: a horizontal rule line. -/
def hrLine (l : List Char) : Bool :=
  let a := l.dropWhile isWsChar
  let b := a.takeWhile (fun ch => ch == '-' || ch == '*' || ch == '_')
  decide (3 ≤ b.length) && (a.drop b.length).all isWsChar

/-- `regex_match(line, "^```(\w*)\s*$")`: an opening fence; returns the
language tag. -/
def fenceOpen (l : List Char) : Option (List Char) :=
  match l with
  | '`' :: '`' :: '`' :: rest =>
    let w := rest.takeWhile isWordChar
    if (rest.drop w.length).all isWsChar then some w else none
  | _ => none

/-- `regex_match(line, "^```\s*$")`: a closing fence. -/
def fenceClose (l : List Char) : Bool :=
  match l with
  | '`' :: '`' :: '`' :: rest => rest.all isWsChar
  | _ => false

/-- `regex_match(line, "^\s*>\s*(.*)$")`: a quote line; returns the
remainder after `>` and the following whitespace. -/
def quoteMatch (l : List Char) : Option (List Char) :=
  match l.dropWhile isWsChar with
  | '>' :: rest =>
    let w := rest.takeWhile isWsChar
    let c := rest.drop w.length
    if c.contains '\n' then none else some c
  | _ => none

/-- `regex_match(line, "^(\s*)[-*+]\s+(.+)$")`: an unordered bullet;
returns the item content (the captured indentation is discarded by the
C++ code). -/
def unorderedMatch (l : List Char) : Option (List Char) :=
  match l.dropWhile isWsChar with
  | b :: rest => if b = '-' || b = '*' || b = '+' then wsPlusContent rest else none
  | [] => none

/-- `regex_match(line, "^(\s*)\d+\.\s+(.+)$")`: an ordered bullet. -/
def orderedMatch (l : List Char) : Option (List Char) :=
  let a := l.dropWhile isWsChar
  let d := a.takeWhile isDigitChar
  if d.isEmpty then none
  else
    match a.drop d.length with
    | '.' :: rest => wsPlusContent rest
    | _ => none

/-- The list-branch entry test: unordered tried first, then ordered
(the two cannot both match: one needs a bullet character first, the
other a digit). -/
def bulletMatch (l : List Char) : Option (List Char) :=
  (unorderedMatch l).orElse (fun _ => orderedMatch l)

/-- `regex_match(table_line, "^\s*\|[\s\-\|]*\|\s*$")`: a separator
row. -/
def tableSepLine (l : List Char) : Bool :=
  let a := l.dropWhile isWsChar
  let t := (a.reverse.dropWhile isWsChar).reverse
  decide (2 ≤ t.length) && (t.head? == some '|') && (t.getLast? == some '|') &&
    ((t.drop 1).dropLast.all (fun ch => isWsChar ch || ch == '-' || ch == '|'))

/-- The `sregex_iterator` over `\|([^|]*)`: the capture after each `|`
of the line (characters before the first `|` are skipped by the
search). -/
def cellRunsFuel : Nat → List Char → List (List Char)
  | 0, _ => []
  | _ + 1, [] => []
  | fuel + 1, '|' :: rest =>
    let c := rest.takeWhile (fun ch => !(ch == '|'))
    c :: cellRunsFuel fuel (rest.drop c.length)
  | fuel + 1, _ :: rest => cellRunsFuel fuel rest

def trimCell (l : List Char) : List Char :=
  ((l.dropWhile (fun ch => ch == ' ' || ch == '\t')).reverse.dropWhile
    (fun ch => ch == ' ' || ch == '\t')).reverse

/-- One table row: each captured cell is trimmed (`" \t"`), and the
first capture is dropped when empty (the `iter != sregex_iterator(...)`
guard only spares non-first matches). -/
def rowCells (line : List Char) : List Node :=
  match cellRunsFuel (line.length + 1) line with
  | [] => []
  | first :: others =>
    (if (trimCell first).isEmpty then []
     else [Node.mk .TableCell "" [] (parseInline (trimCell first)) 0]) ++
      others.map (fun c => Node.mk .TableCell "" [] (parseInline (trimCell c)) 0)

/-- The table-consuming loop: every line containing `|` is consumed;
separator rows are dropped; rows with no cells are not materialized. -/
def tableLoopFuel : Nat → List (List Char) → Nat → (List Node × Nat)
  | 0, _, pos => ([], pos)
  | fuel + 1, lines, pos =>
    match lines[pos]? with
    | none => ([], pos)
    | some line =>
      if line.contains '|' then
        if tableSepLine line then tableLoopFuel fuel lines (pos + 1)
        else
          let cells := rowCells line
          let next := tableLoopFuel fuel lines (pos + 1)
          ((if cells.isEmpty then [] else [Node.mk .TableRow "" [] cells 0]) ++ next.1, next.2)
      else ([], pos)

/-- The fenced-code body loop: raw lines joined with `\n` (the
newline is only inserted when something was already written, matching
the `tellp() > 0` check), consumed up to a closing fence or the end of
input. -/
def fenceBody : Nat → List (List Char) → Nat → List Char → (List Char × Nat)
  | 0, _, pos, acc => (acc, pos)
  | fuel + 1, lines, pos, acc =>
    match lines[pos]? with
    | none => (acc, pos)
    | some line =>
      if fenceClose line then (acc, pos)
      else fenceBody fuel lines (pos + 1) (if acc.isEmpty then line else acc ++ '\n' :: line)

/-- The paragraph-continuation loop: subsequent lines are absorbed
(joined with one space) while non-empty and not matching the
`headingBreakLine` check. -/
def paraLoop : Nat → List (List Char) → Nat → List Char → (List Char × Nat)
  | 0, _, pos, acc => (acc, pos)
  | fuel + 1, lines, pos, acc =>
    match lines[pos]? with
    | none => (acc, pos)
    | some line =>
      if line.isEmpty || headingBreakLine line then (acc, pos)
      else paraLoop fuel lines (pos + 1) (acc ++ ' ' :: line)

/-- The list-consuming loop: every consecutive line matching either
bullet style becomes a flat sibling `ListItem`; each item carries
`ordered="true"` exactly when `isOrd` (fixed by the first line). -/
def listLoopFuel : Nat → List (List Char) → Nat → Bool → (List Node × Nat)
  | 0, _, pos, _ => ([], pos)
  | fuel + 1, lines, pos, isOrd =>
    match lines[pos]? with
    | none => ([], pos)
    | some line =>
      match bulletMatch line with
      | some content =>
        let item := Node.mk .ListItem ""
          (if isOrd then html.attrInsert [] "ordered" "true" else []) (parseInline content) 0
        let next := listLoopFuel fuel lines (pos + 1) isOrd
        (item :: next.1, next.2)
      | none => ([], pos)

/-- `markdown::Deserializer::parse_block`: block kind chosen by
first-match priority; returns the produced node (none for a blank
line) and the new cursor position. -/
def parseBlock (lines : List (List Char)) (pos : Nat) : Option Node × Nat :=
  match lines[pos]? with
  | none => (none, pos)
  | some line =>
    if line.isEmpty then (none, pos + 1)
    else if hrLine line then (some (Node.mk .HorizontalRule "" [] [] 0), pos + 1)
    else
      match headingMatch line with
      | some (k, content) => (some (Node.mk .Heading ⟨content⟩ [] [] (Int.ofNat k)), pos + 1)
      | none =>
        match fenceOpen line with
        | some lang =>
          let fb := fenceBody (lines.length + 1) lines (pos + 1) []
          let p := if fb.2 < lines.length then fb.2 + 1 else fb.2
          (some (Node.mk .CodeBlock ⟨fb.1⟩
            (if lang.isEmpty then [] else html.attrInsert [] "language" ⟨lang⟩) [] 0), p)
        | none =>
          match quoteMatch line with
          | some qc => (some (Node.mk .Quote "" [] (parseInline qc) 0), pos + 1)
          | none =>
            match bulletMatch line with
            | some _ =>
              let isOrd := (orderedMatch line).isSome
              let ll := listLoopFuel (lines.length + 1) lines pos isOrd
              (some (Node.mk .List "" [] ll.1 0), ll.2)
            | none =>
              if line.contains '|' then
                let tl := tableLoopFuel (lines.length + 1) lines pos
                (some (Node.mk .Table "" [] tl.1 0), tl.2)
              else
                let pl := paraLoop (lines.length + 1) lines (pos + 1) line
                (some (Node.mk .Paragraph "" [] (parseInline pl.1) 0), pl.2)

/-- The `while (pos < lines.size()) parse_block(...)` driver loop. -/
def parseLoop : Nat → List (List Char) → Nat → List Node
  | 0, _, _ => []
  | fuel + 1, lines, pos =>
    if pos < lines.length then
      match parseBlock lines pos with
      | (some n, p) => n :: parseLoop fuel lines p
      | (none, p) => parseLoop fuel lines p
    else []

/-- `std::getline` splitting: lines up to each `\n`; a trailing
newline produces no extra empty line, and the empty input has no
lines. -/
def splitLinesFuel : Nat → List Char → List (List Char)
  | 0, _ => []
  | _ + 1, [] => []
  | fuel + 1, c :: rest =>
    let line := (c :: rest).takeWhile (fun ch => !(ch == '\n'))
    line :: splitLinesFuel fuel ((c :: rest).drop (line.length + 1))

def splitLines (s : String) : List (List Char) :=
  splitLinesFuel (s.data.length + 1) s.data

/-- `markdown::Deserializer::deserialize` (`parse_markdown`). -/
def Deserializer.deserialize (s : String) : Node :=
  let lines := splitLines s
  Node.mk .Document "" [] (parseLoop (lines.length + 1) lines 0) 0

end markdown

/-- Embedding check against the repository's `ParsingSimpleText` and
`ParsingHeading` tests. -/
theorem parse_markdown_basic_check :
    markdown.Deserializer.deserialize "Hello World" =
        markdown.Node.mk .Document "" []
          [markdown.Node.mk .Paragraph "" []
            [markdown.Node.mk .Text "Hello World" [] [] 0] 0] 0 ∧
      markdown.Deserializer.deserialize "# Main Title\n## Subtitle" =
        markdown.Node.mk .Document "" []
          [markdown.Node.mk .Heading "Main Title" [] [] 1,
           markdown.Node.mk .Heading "Subtitle" [] [] 2] 0 :=
  ⟨rfl, rfl⟩

namespace markdown

/-! ## C8 infrastructure: the list loop and branch disjointness -/

theorem listLoop_eq (fuel : Nat) : ∀ (lines : List (List Char)) (pos : Nat) (isOrd : Bool),
    lines.length - pos < fuel →
    (listLoopFuel fuel lines pos isOrd).1 =
      ((lines.drop pos).takeWhile (fun l => (bulletMatch l).isSome)).map
        (fun l => Node.mk .ListItem ""
          (if isOrd then html.attrInsert [] "ordered" "true" else [])
          (parseInline ((bulletMatch l).getD [])) 0) := by
  induction fuel with
  | zero => intro lines pos isOrd hf; omega
  | succ f ih =>
    intro lines pos isOrd hf
    cases hline : lines[pos]? with
    | none =>
      have hge : lines.length ≤ pos := by
        by_contra hlt
        rw [List.getElem?_eq_getElem (by omega)] at hline
        cases hline
      rw [List.drop_eq_nil_of_le hge]
      show (listLoopFuel (f + 1) lines pos isOrd).1 = []
      simp only [listLoopFuel]
      rw [hline]
    | some line =>
      obtain ⟨hlt, hget⟩ := List.getElem?_eq_some.mp hline
      have hdrop : lines.drop pos = line :: lines.drop (pos + 1) := by
        rw [List.drop_eq_getElem_cons hlt, hget]
      rw [hdrop]
      show (listLoopFuel (f + 1) lines pos isOrd).1 = _
      simp only [listLoopFuel]
      rw [hline]
      cases hb : bulletMatch line with
      | none =>
        rw [List.takeWhile_cons]
        simp [hb]
      | some content =>
        rw [List.takeWhile_cons]
        simp only [hb, Option.isSome_some, if_pos]
        rw [List.map_cons]
        have := ih lines (pos + 1) isOrd (by omega)
        simp only [this]
        simp [hb]

theorem bulletMatch_ne_nil (l : List Char) (c : List Char) (hb : bulletMatch l = some c) :
    l.isEmpty = false := by
  cases l with
  | nil => cases hb
  | cons a as => rfl

theorem wsPlusContent_head (rest : List Char) (c : List Char)
    (h : wsPlusContent rest = some c) :
    ∃ w0 rest', rest = w0 :: rest' ∧ isWsChar w0 = true := by
  cases rest with
  | nil => cases h
  | cons r0 r' =>
    cases hw : isWsChar r0 with
    | true => exact ⟨r0, r', rfl, hw⟩
    | false =>
      exfalso
      unfold wsPlusContent at h
      rw [List.takeWhile_cons, hw] at h
      simp at h

theorem ws_not_marker (ch : Char) (h : isWsChar ch = true) :
    (ch == '-' || ch == '*' || ch == '_') = false := by
  simp only [isWsChar, Bool.or_eq_true, decide_eq_true_eq] at h
  rcases h with ((((h | h) | h) | h) | h) | h <;> subst h <;> decide

theorem ws_not_bullet (ch : Char) (h : isWsChar ch = true) :
    (ch = '-' || ch = '*' || ch = '+') = false := by
  simp only [isWsChar, Bool.or_eq_true, decide_eq_true_eq] at h
  rcases h with ((((h | h) | h) | h) | h) | h <;> subst h <;> decide

theorem ws_not_digit (ch : Char) (h : isWsChar ch = true) : isDigitChar ch = false := by
  simp only [isWsChar, Bool.or_eq_true, decide_eq_true_eq] at h
  rcases h with ((((h | h) | h) | h) | h) | h <;> subst h <;> decide

/-- A bullet line is never a horizontal-rule line: `+` and digits are
not rule markers, and after `-`/`*` the pattern requires whitespace,
capping the marker run at length 1. -/
theorem bulletMatch_not_hr (l : List Char) (c : List Char) (hb : bulletMatch l = some c) :
    hrLine l = false := by
  unfold bulletMatch at hb
  simp only [hrLine]
  cases ha : l.dropWhile isWsChar with
  | nil =>
    exfalso
    unfold unorderedMatch orderedMatch at hb
    rw [ha] at hb
    simp [Option.orElse] at hb
  | cons b rest =>
    unfold unorderedMatch orderedMatch at hb
    rw [ha] at hb
    dsimp only at hb
    by_cases hbu : (b = '-' || b = '*' || b = '+') = true
    · rw [if_pos hbu] at hb
      have hwc : wsPlusContent rest = some c := by
        cases hwc' : wsPlusContent rest with
        | none =>
          exfalso
          rw [hwc'] at hb
          dsimp only [Option.orElse] at hb
          have hb3 : (b = '-' ∨ b = '*') ∨ b = '+' := by simpa using hbu
          have hdb : isDigitChar b = false := by
            rcases hb3 with (rfl | rfl) | rfl <;> decide
          rw [List.takeWhile_cons, hdb] at hb
          simp at hb
        | some c2 =>
          rw [hwc'] at hb
          dsimp only [Option.orElse] at hb
          exact hb
      obtain ⟨w0, rest', rfl, hw0⟩ := wsPlusContent_head rest c hwc
      rw [List.takeWhile_cons]
      by_cases hm : (b == '-' || b == '*' || b == '_') = true
      · rw [if_pos hm]
        rw [List.takeWhile_cons, ws_not_marker w0 hw0]
        simp
      · rw [if_neg hm]
        simp
    · rw [if_neg hbu] at hb
      dsimp only [Option.orElse] at hb
      have hd : isDigitChar b = true := by
        cases hdb : isDigitChar b with
        | true => rfl
        | false =>
          exfalso
          rw [List.takeWhile_cons, hdb] at hb
          simp at hb
      have hbm : (b == '-' || b == '*' || b == '_') = false := by
        have h1 : ¬ b = '-' := by
          intro h; subst h; cases hd
        have h2 : ¬ b = '*' := by
          intro h; subst h; cases hd
        have h3 : ¬ b = '_' := by
          intro h; subst h; cases hd
        simp [h1, h2, h3]
      rw [List.takeWhile_cons, hbm]
      simp

end markdown

/-- C3: the paragraph fallback never stops at a heading line. The
interruption check is a WHOLE-line `regex_match` against `^#{1,6}\s+`,
which an actual heading line such as `# Head` does not satisfy (it has
text after the whitespace), so `"text\n# Head"` collapses into a single
Paragraph whose joined text is `"text # Head"` instead of a Paragraph
`"text"` followed by a level-1 Heading `"Head"`. -/
theorem markdown.paragraph_not_broken_by_heading :
    markdown.Deserializer.deserialize "text\n# Head" =
        markdown.Node.mk .Document "" []
          [markdown.Node.mk .Paragraph "" []
            [markdown.Node.mk .Text "text # Head" [] [] 0] 0] 0 ∧
      markdown.headingBreakLine "# Head".data = false ∧
      markdown.headingBreakLine "#   ".data = true :=
  ⟨rfl, rfl, rfl⟩

/-- C4: an image literal is mis-tokenized because the link pattern is
tried before the image pattern: `![alt](src)` parses to a stray literal
`"!"` Text node followed by a Link node with text `alt` and
`href="src"`, not to an Image node. -/
theorem markdown.image_parsed_as_stray_link :
    markdown.Deserializer.deserialize "![alt](src)" =
      markdown.Node.mk .Document "" []
        [markdown.Node.mk .Paragraph "" []
          [markdown.Node.mk .Text "!" [] [] 0,
           markdown.Node.mk .Link "alt" [("href", "src")] [] 0] 0] 0 :=
  rfl

namespace markdown

theorem ws_not_hash (ch : Char) (h : isWsChar ch = true) : (ch == '#') = false := by
  simp only [isWsChar, Bool.or_eq_true, decide_eq_true_eq] at h
  rcases h with ((((h | h) | h) | h) | h) | h <;> subst h <;> decide

theorem ws_not_backtick (ch : Char) (h : isWsChar ch = true) : ch ≠ '`' := by
  simp only [isWsChar, Bool.or_eq_true, decide_eq_true_eq] at h
  rcases h with ((((h | h) | h) | h) | h) | h <;> subst h <;> decide

theorem ws_not_gt (ch : Char) (h : isWsChar ch = true) : ch ≠ '>' := by
  simp only [isWsChar, Bool.or_eq_true, decide_eq_true_eq] at h
  rcases h with ((((h | h) | h) | h) | h) | h <;> subst h <;> decide

/-- After skipping leading whitespace, a bullet line starts with a
bullet marker or a digit. -/
theorem bulletMatch_head (l : List Char) (c : List Char) (hb : bulletMatch l = some c) :
    ∃ b rest, l.dropWhile isWsChar = b :: rest ∧
      (((b = '-' ∨ b = '*') ∨ b = '+') ∨ isDigitChar b = true) := by
  unfold bulletMatch unorderedMatch orderedMatch at hb
  cases ha : l.dropWhile isWsChar with
  | nil =>
    exfalso
    rw [ha] at hb
    simp [Option.orElse] at hb
  | cons b rest =>
    rw [ha] at hb
    dsimp only at hb
    refine ⟨b, rest, rfl, ?_⟩
    by_cases hbu : (b = '-' || b = '*' || b = '+') = true
    · left
      simpa using hbu
    · right
      rw [if_neg hbu] at hb
      dsimp only [Option.orElse] at hb
      cases hdb : isDigitChar b with
      | true => rfl
      | false =>
        exfalso
        rw [List.takeWhile_cons, hdb] at hb
        simp at hb

/-- The first character of a bullet line is whitespace, a bullet
marker, or a digit. -/
theorem bullet_head_class (l : List Char) (c : List Char) (hb : bulletMatch l = some c) :
    ∃ a as, l = a :: as ∧
      (isWsChar a = true ∨ (((a = '-' ∨ a = '*') ∨ a = '+') ∨ isDigitChar a = true)) := by
  obtain ⟨b, rest, hd, hcase⟩ := bulletMatch_head l c hb
  cases l with
  | nil => simp at hd
  | cons a as =>
    refine ⟨a, as, rfl, ?_⟩
    cases hwa : isWsChar a with
    | true => exact Or.inl rfl
    | false =>
      right
      rw [List.dropWhile_cons, hwa] at hd
      simp only [Bool.false_eq_true, if_false, List.cons.injEq] at hd
      obtain ⟨rfl, rfl⟩ := hd
      exact hcase

theorem bullet_hashRun_zero (l : List Char) (c : List Char) (hb : bulletMatch l = some c) :
    hashRun l = 0 := by
  obtain ⟨a, as, rfl, hcl⟩ := bullet_head_class l c hb
  unfold hashRun
  rw [List.takeWhile_cons]
  have hne : (a == '#') = false := by
    rcases hcl with hws | ((rfl | rfl) | rfl) | hd
    · exact ws_not_hash a hws
    · decide
    · decide
    · decide
    · cases hda : a == '#' with
      | false => rfl
      | true =>
        exfalso
        have : a = '#' := by simpa using hda
        subst this
        cases hd
  rw [hne]
  rfl

theorem bulletMatch_not_heading (l : List Char) (c : List Char)
    (hb : bulletMatch l = some c) : headingMatch l = none := by
  unfold headingMatch
  rw [bullet_hashRun_zero l c hb]
  simp

theorem bulletMatch_not_fence (l : List Char) (c : List Char)
    (hb : bulletMatch l = some c) : fenceOpen l = none := by
  obtain ⟨a, as, rfl, hcl⟩ := bullet_head_class l c hb
  have hne : a ≠ '`' := by
    rcases hcl with hws | ((rfl | rfl) | rfl) | hd
    · exact ws_not_backtick a hws
    · decide
    · decide
    · decide
    · intro h
      subst h
      cases hd
  unfold fenceOpen
  split
  · rename_i heq
    exact absurd (List.head_eq_of_cons_eq heq) hne
  · rfl

theorem bulletMatch_not_quote (l : List Char) (c : List Char)
    (hb : bulletMatch l = some c) : quoteMatch l = none := by
  obtain ⟨b, rest, hd, hcase⟩ := bulletMatch_head l c hb
  have hne : b ≠ '>' := by
    rcases hcase with ((rfl | rfl) | rfl) | hdg
    · decide
    · decide
    · decide
    · intro h
      subst h
      cases hdg
  unfold quoteMatch
  rw [hd]
  split
  · rename_i heq
    exact absurd (List.head_eq_of_cons_eq heq) hne
  · rfl

end markdown

namespace markdown

/-- The list branch of `parse_block`: a bullet line wins over every
earlier branch (blank, rule, heading, fence, quote), fixes
`is_ordered` from this first line, and the loop takes exactly the
maximal run of lines matching either bullet style. -/
theorem parseBlock_list (lines : List (List Char)) (pos : Nat) (line content : List Char)
    (hl : lines[pos]? = some line) (hb : bulletMatch line = some content) :
    (parseBlock lines pos).1 =
      some (Node.mk .List "" []
        (((lines.drop pos).takeWhile (fun l => (bulletMatch l).isSome)).map
          (fun l => Node.mk .ListItem ""
            (if (orderedMatch line).isSome then html.attrInsert [] "ordered" "true" else [])
            (parseInline ((bulletMatch l).getD [])) 0)) 0) := by
  unfold parseBlock
  rw [hl]
  dsimp only
  rw [if_neg (by rw [bulletMatch_ne_nil line content hb]; simp)]
  rw [if_neg (by rw [bulletMatch_not_hr line content hb]; simp)]
  rw [bulletMatch_not_heading line content hb]
  dsimp only
  rw [bulletMatch_not_fence line content hb]
  dsimp only
  rw [bulletMatch_not_quote line content hb]
  dsimp only
  rw [hb]
  dsimp only
  rw [listLoop_eq (lines.length + 1) lines pos (orderedMatch line).isSome (by omega)]

end markdown

/-- C8: the first matched bullet line fixes `is_ordered` for the
whole List; the loop then consumes the maximal run of subsequent
lines matching either bullet style into flat sibling ListItem nodes,
each carrying `attributes["ordered"]="true"` exactly when the list is
ordered (`html.attrInsert [] "ordered" "true"` when `is_ordered`,
no attributes otherwise); and `parse_markdown("- a\n- b\n- c")`
yields one List with three unadorned ListItems `a`, `b`, `c`. -/
theorem markdown.list_block_items (lines : List (List Char)) (pos : Nat)
    (line content : List Char)
    (hl : lines[pos]? = some line) (hb : markdown.bulletMatch line = some content) :
    (markdown.parseBlock lines pos).1 =
        some (markdown.Node.mk .List "" []
          (((lines.drop pos).takeWhile (fun l => (markdown.bulletMatch l).isSome)).map
            (fun l => markdown.Node.mk .ListItem ""
              (if (markdown.orderedMatch line).isSome then
                html.attrInsert [] "ordered" "true" else [])
              (markdown.parseInline ((markdown.bulletMatch l).getD [])) 0)) 0) ∧
      markdown.Deserializer.deserialize "- a\n- b\n- c" =
        markdown.Node.mk .Document "" []
          [markdown.Node.mk .List "" []
            [markdown.Node.mk .ListItem "" [] [markdown.Node.mk .Text "a" [] [] 0] 0,
             markdown.Node.mk .ListItem "" [] [markdown.Node.mk .Text "b" [] [] 0] 0,
             markdown.Node.mk .ListItem "" [] [markdown.Node.mk .Text "c" [] [] 0] 0] 0] 0 :=
  ⟨markdown.parseBlock_list lines pos line content hl hb, rfl⟩

/-- Witness for C8 at the single bullet line `- a`. -/
theorem markdown.list_block_items_witness :
    (markdown.parseBlock [['-', ' ', 'a']] 0).1 =
        some (markdown.Node.mk .List "" []
          ((([['-', ' ', 'a']].drop 0).takeWhile
              (fun l => (markdown.bulletMatch l).isSome)).map
            (fun l => markdown.Node.mk .ListItem ""
              (if (markdown.orderedMatch ['-', ' ', 'a']).isSome then
                html.attrInsert [] "ordered" "true" else [])
              (markdown.parseInline ((markdown.bulletMatch l).getD [])) 0)) 0) ∧
      markdown.Deserializer.deserialize "- a\n- b\n- c" =
        markdown.Node.mk .Document "" []
          [markdown.Node.mk .List "" []
            [markdown.Node.mk .ListItem "" [] [markdown.Node.mk .Text "a" [] [] 0] 0,
             markdown.Node.mk .ListItem "" [] [markdown.Node.mk .Text "b" [] [] 0] 0,
             markdown.Node.mk .ListItem "" [] [markdown.Node.mk .Text "c" [] [] 0] 0] 0] 0 :=
  markdown.list_block_items [['-', ' ', 'a']] 0 ['-', ' ', 'a'] ['a'] rfl rfl
